import Mathlib

/-!
Verification of the OptiSigns content-synchronization pipeline.

This file gives a shallow embedding of the Python sources:
  - `src/diffcheck/diff.py`   (`get_dict_differences`)
  - `src/orchestrator/orchestrator.py` (`ScraperOrchestrator`)
  - `src/uploader/uploader.py` (`FileUploader`)
  - `src/scraper/scraper.py` + `src/scraper/optiapi/client.py` (harvest)

Python dictionaries are modelled as insertion-ordered association lists
(`PyDict`), with assignment (`pySet`) replacing an existing key in place and
otherwise appending, exactly like CPython dicts.  Remote calls (OpenAI
uploads/deletes, HTTP listings) are modelled by oracle environments, and each
remote call performed is recorded in an event trace.  Fallible code returns
`Except String`.
-/

namespace Sync

/-- A Python dict: insertion-ordered association list with unique keys
maintained by `pySet`. -/
abbrev PyDict (K V : Type) : Type := List (K × V)

/-- `d[k]` lookup returning the value of the first entry with key `k`
(under unique keys, the value of the key). -/
def pyGet? {K V : Type} [DecidableEq K] (d : PyDict K V) (k : K) : Option V :=
  (d.find? (fun p => p.1 = k)).map (fun p => p.2)

/-- `k in d` for a Python dict. -/
def pyHasKey {K V : Type} [DecidableEq K] (d : PyDict K V) (k : K) : Bool :=
  d.any (fun p => p.1 = k)

/-- `d.keys()` in iteration order. -/
def pyKeys {K V : Type} (d : PyDict K V) : List K :=
  d.map (fun p => p.1)

/-- `d[k] = v`: replace the value in place when the key exists, else append
(CPython dict assignment semantics, preserving insertion order). -/
def pySet {K V : Type} [DecidableEq K] (d : PyDict K V) (k : K) (v : V) : PyDict K V :=
  if pyHasKey d k then d.map (fun p => if p.1 = k then (k, v) else p)
  else d ++ [(k, v)]

/-- `d.update(e)`: assign every entry of `e` into `d` in iteration order. -/
def pyUpdate {K V : Type} [DecidableEq K] (d e : PyDict K V) : PyDict K V :=
  e.foldl (fun acc p => pySet acc p.1 p.2) d

/-- `src/diffcheck/diff.py`: the `DictDifferences` dataclass.  Values are not
retained, so only the key type parameterizes the result. -/
structure DictDifferences (K : Type) where
  new_keys : List K
  updated_keys : List K
  deleted_keys : List K
deriving DecidableEq

/-- `src/diffcheck/diff.py` `get_dict_differences`: set algebra over the key
sets of the two dicts.  Python materializes `set` objects; here the same sets
are computed as duplicate-free-by-construction filtered key lists (the claims
about the result are membership statements, which are order-insensitive). -/
def get_dict_differences {K V : Type} [DecidableEq K] [DecidableEq V]
    (dict1 dict2 : PyDict K V) : DictDifferences K :=
  let keys1 := pyKeys dict1
  let keys2 := pyKeys dict2
  let new_keys := keys2.filter (fun k => ¬ k ∈ keys1)
  let deleted_keys := keys1.filter (fun k => ¬ k ∈ keys2)
  let common_keys := keys1.filter (fun k => k ∈ keys2)
  let updated_keys := common_keys.filter (fun k => pyGet? dict1 k ≠ pyGet? dict2 k)
  { new_keys := new_keys, updated_keys := updated_keys, deleted_keys := deleted_keys }

/-- One remote call against the external artifact store, as recorded in the
event trace of a tick. -/
inductive Event
  | uploadCall (path : String)
  | detachCall (file_id : String)
  | deleteBytesCall (file_id : String)
  | refreshCall
deriving DecidableEq

/-- Oracle for the remote OpenAI artifact store: the outcome each remote call
would have if issued.  `uploadResult p = some fid` means pushing the bytes of
staged file `p` and attaching them to the vector store succeeds and returns
file id `fid`; `none` means that upload raises.  `detachOk` and
`deleteBytesOk` give the outcomes of `vector_stores.files.delete` and
`files.delete` respectively. -/
structure UploadEnv where
  uploadResult : String → Option String
  detachOk : String → Bool
  deleteBytesOk : String → Bool

/-- `src/uploader/uploader.py` `BatchUploadResult`. -/
structure BatchUploadResult where
  successful_uploads : PyDict String String
  failed_uploads : List String
deriving DecidableEq

/-- `FileUploader.upload_file_async`: checks that the staged file exists
(returning `(path, None)` without any remote call when it does not), then
performs the two-call upload, catching any exception as `(path, None)`.
Returns the emitted events together with the `(file_path, file_id)` pair. -/
def upload_file_async (env : UploadEnv) (fs : PyDict String String)
    (file_path : String) : List Event × String × Option String :=
  if pyHasKey fs file_path then
    ([Event.uploadCall file_path], file_path, env.uploadResult file_path)
  else
    ([], file_path, none)

/-- Python truthiness of the `file_id` value tested by
`upload_files_batch` (`if file_id:`): falsy when absent or empty. -/
def uploadOutcomeFailed (o : Option String) : Bool :=
  match o with
  | some fid => fid = ""
  | none => true

/-- The loop body of `FileUploader.upload_files_batch` over the gathered
per-file results: a truthy file id is recorded in `successful_uploads`,
otherwise the path is appended to `failed_uploads`. -/
def batch_step (acc : PyDict String String × List String)
    (r : List Event × String × Option String) : PyDict String String × List String :=
  match r.2.2 with
  | some fid =>
      if fid = "" then (acc.1, acc.2 ++ [r.2.1 ++ " (Upload failed)"])
      else (pySet acc.1 r.2.1 fid, acc.2)
  | none => (acc.1, acc.2 ++ [r.2.1 ++ " (Upload failed)"])

/-- `FileUploader.upload_files_batch` (the `createBatch` contract): gather all
per-file uploads (the `asyncio.gather` branch re-raising task exceptions is
unreachable because `upload_file_async` catches everything), fold the results
into the batch result, and issue the single assistant update only when at
least one upload succeeded (that refresh catches and logs its own errors). -/
def upload_files_batch (env : UploadEnv) (fs : PyDict String String)
    (file_paths : List String) : List Event × BatchUploadResult :=
  let results := file_paths.map (upload_file_async env fs)
  let events := (results.map (fun r => r.1)).flatten
  let acc := results.foldl batch_step ([], [])
  let refresh_events := if acc.1 = [] then [] else [Event.refreshCall]
  (events ++ refresh_events, BatchUploadResult.mk acc.1 acc.2)

/-- The body of `_delete_sync` inside `FileUploader._delete_file_async` before
the enclosing `except`: detach from the vector store, then delete the bytes;
an exception in either remote call aborts the rest of the body. -/
def delete_sync (env : UploadEnv) (file_id : String) : List Event × Except String Unit :=
  if env.detachOk file_id then
    if env.deleteBytesOk file_id then
      ([Event.detachCall file_id, Event.deleteBytesCall file_id], Except.ok ())
    else
      ([Event.detachCall file_id, Event.deleteBytesCall file_id],
        Except.error "files.delete failed")
  else
    ([Event.detachCall file_id], Except.error "vector_stores.files.delete failed")

/-- `FileUploader._delete_file_async`: runs `_delete_sync` and swallows any
exception (logging it), so it always completes and yields only its trace. -/
def delete_file_async (env : UploadEnv) (file_id : String) : List Event :=
  (delete_sync env file_id).1

/-- `FileUploader.update_files_batch` (the `replaceBatch` contract): gather
all old-file deletions, then upload the new batch. -/
def update_files_batch (env : UploadEnv) (fs : PyDict String String)
    (file_paths : List String) (openai_ids : List String) :
    List Event × BatchUploadResult :=
  let delete_events := (openai_ids.map (delete_file_async env)).flatten
  let (upload_events, result) := upload_files_batch env fs file_paths
  (delete_events ++ upload_events, result)

/-- `src/scraper/optiapi/models.py` `Article`: the fields read by the
synchronization logic.  The remaining response metadata fields (urls, author,
dates, positions, locale flags, vote counts, labels) are never read by the
orchestrator, uploader or differ and are omitted. -/
structure Article where
  id : Int
  name : String
  body : String
  file_path : Option String := none
deriving DecidableEq

/-- A Python dict key as it occurs around the `article_openai_id` redis hash:
`_save_article_openai_file_ids` merges an int-keyed dict into the str-keyed
dict returned by `hgetall`, and redis stringifies every field on `hset`. -/
inductive PyKey
  | pint (i : Int)
  | pstr (s : String)
deriving DecidableEq

/-- The field name under which a key is written by `hset` (`str()` of the
key). -/
def PyKey.toStr : PyKey → String
  | .pint i => toString i
  | .pstr s => s

/-- `redis.hset(key, mapping=m)`: every field of `m` is stringified and set
on the hash in iteration order (later duplicate fields overwrite earlier
ones); fields not mentioned in `m` are left untouched. -/
def hsetMapping (h : PyDict String String) (m : PyDict PyKey String) :
    PyDict String String :=
  m.foldl (fun acc p => pySet acc p.1.toStr p.2) h

/-- The value assigned to string field `k` by the last entry of `m` whose
stringified key is `k` (`hset` lets later duplicate fields win), used to
reason about `hsetMapping`. -/
def lastValFor : PyDict PyKey String → String → Option String
  | [], _ => none
  | p :: m, k =>
    match lastValFor m k with
    | some v => some v
    | none => if p.1.toStr = k then some p.2 else none

/-- The loop body of `_save_article_openai_file_ids`: an article with no
staged path is skipped (Python `None in dict` is false), as is an article
whose staged path is not a key of `successful_uploads`; otherwise
`{article.id: successful_uploads[article.file_path]}` is recorded. -/
def aoim_step (successful_uploads : PyDict String String)
    (acc : PyDict PyKey String) (a : Article) : PyDict PyKey String :=
  match a.file_path with
  | some p =>
    match pyGet? successful_uploads p with
    | some fid => pySet acc (PyKey.pint a.id) fid
    | none => acc
  | none => acc

/-- The loop of `_save_article_openai_file_ids` mapping staged paths back to
article ids over the current articles. -/
def article_openai_id_map (current_articles : List Article)
    (successful_uploads : PyDict String String) : PyDict PyKey String :=
  current_articles.foldl (aoim_step successful_uploads) []

/-- `ScraperOrchestrator._save_article_openai_file_ids`: no-op on an empty
batch; otherwise read the whole hash (`hgetall`, string keys), merge the
int-keyed batch into it with `dict.update`, and write the merged dict back
with a single `hset`. -/
def save_article_openai_file_ids (current_articles : List Article)
    (successful_uploads : PyDict String String)
    (redis_hash : PyDict String String) : PyDict String String :=
  if successful_uploads = [] then redis_hash
  else
    let current_ids : PyDict PyKey String :=
      redis_hash.map (fun p => (PyKey.pstr p.1, p.2))
    let merged :=
      pyUpdate current_ids (article_openai_id_map current_articles successful_uploads)
    hsetMapping redis_hash merged

/-- The staged path of an article: `os.path.join(output_dir,
slugify(article.name) + ".md")`. -/
def staged_path (slugify : String → String) (output : String) (a : Article) :
    String :=
  output ++ "/" ++ slugify a.name ++ ".md"

/-- The loop body of `_save_articles`: write the body to the staged path with
truncating overwrite and record the path on the article. -/
def save_step (slugify : String → String) (output : String)
    (acc : PyDict String String × List Article) (a : Article) :
    PyDict String String × List Article :=
  (pySet acc.1 (staged_path slugify output a) a.body,
    acc.2 ++ [{ a with file_path := some (staged_path slugify output a) }])

/-- `ScraperOrchestrator._save_articles`: ensure the output directory, write
each rendered body to `{output}/{slugify(name)}.md` with truncating
overwrite, and record the staged path on the article.  `slugify` comes from
`utils/path.py`, which is outside the orchestrator sources, and is a
parameter here; the claims below never depend on its definition. -/
def save_articles (slugify : String → String) (output : String)
    (fs : PyDict String String) (articles : List Article) :
    PyDict String String × List Article :=
  articles.foldl (save_step slugify output) (fs, [])

/-- The filesystem effect of `_save_articles` alone: every staged path is
written in article order, later writes overwriting earlier ones. -/
def stage_fs (slugify : String → String) (output : String)
    (fs : PyDict String String) (articles : List Article) :
    PyDict String String :=
  articles.foldl (fun fs2 a => pySet fs2 (staged_path slugify output a) a.body) fs

/-- The loop body of `_generate_file_hashes`: raise `ValueError` on a falsy
body, else record the hash under the article id. -/
def gfh_step (sha : String → String) (res : PyDict Int String) (a : Article) :
    Except String (PyDict Int String) :=
  if a.body = "" then
    Except.error ("Article " ++ a.name ++ " has no body content.")
  else Except.ok (pySet res a.id (sha a.body))

/-- `ScraperOrchestrator._generate_file_hashes`: hash each body (the `sha`
parameter stands for `hashlib.sha256(body.encode("utf-8")).hexdigest()`),
raising at the first article whose body is empty (falsy). -/
def generate_file_hashes (sha : String → String) (articles : List Article) :
    Except String (PyDict Int String) :=
  articles.foldlM (gfh_step sha) []

/-- `ScraperOrchestrator._create_new_articles`: early return on an empty id
list; otherwise upload the staged paths of the selected articles and persist
the file ids of the successful uploads. -/
def create_new_articles (env : UploadEnv) (current_articles : List Article)
    (fs : PyDict String String) (redis_hash : PyDict String String)
    (article_ids : List Int) : List Event × PyDict String String :=
  if article_ids = [] then ([], redis_hash)
  else
    let selected := current_articles.filterMap (fun a =>
      if a.id ∈ article_ids then a.file_path else none)
    let (events, result) := upload_files_batch env fs selected
    (events,
      save_article_openai_file_ids current_articles result.successful_uploads redis_hash)

/-- The loop body of `_update_new_articles`: for each current article with a
selected id, collect its staged path and its existing OpenAI id from the hash
read by `hgetall`; articles with no staged path or no OpenAI id are only
recorded into lists that are never read again and logged. -/
def upd_pairs_step (redis_hash : PyDict String String) (article_ids : List Int)
    (acc : List (String × String)) (a : Article) : List (String × String) :=
  if a.id ∈ article_ids then
    match a.file_path with
    | none => acc
    | some p =>
      match pyGet? redis_hash (toString a.id) with
      | none => acc
      | some oid => acc ++ [(p, oid)]
  else acc

def update_new_articles (env : UploadEnv) (current_articles : List Article)
    (fs : PyDict String String) (redis_hash : PyDict String String)
    (article_ids : List Int) : List Event × PyDict String String :=
  if article_ids = [] then ([], redis_hash)
  else
    let pairs := current_articles.foldl (upd_pairs_step redis_hash article_ids)
      ([] : List (String × String))
    let (events, result) := update_files_batch env fs (pairs.map (fun q => q.1))
      (pairs.map (fun q => q.2))
    (events,
      save_article_openai_file_ids current_articles result.successful_uploads redis_hash)

/-- The persistent state one tick touches: the staged-file directory, the
`article_openai_id` redis hash (the ArtifactIndex), and the `lock:all` value
(`none` when the key has never been written). -/
structure OrchState where
  fs : PyDict String String
  artifact_index : PyDict String String
  lock : Option (PyDict Int String)
deriving DecidableEq

/-- `RemoteContentLockStore.get`: a missing key coerces to the empty lock; a
lock previously written by `update` round-trips to the same int-keyed dict. -/
def remote_lock_get (lock : Option (PyDict Int String)) : PyDict Int String :=
  lock.getD []

/-- `ScraperOrchestrator.sync` for one tick, applied to the harvested
articles: stage all bodies, hash them (a hash failure propagates, leaving
the redis state untouched), read the previous lock, diff, create the new
articles, update the changed ones, and finally write the full current hash
map to the lock store.  Returns the event trace, the state after the tick,
and the raised error, if any. -/
def sync (slugify : String → String) (output : String) (env : UploadEnv)
    (sha : String → String) (st : OrchState) (articles : List Article) :
    List Event × OrchState × Option String :=
  match generate_file_hashes sha (save_articles slugify output st.fs articles).2 with
  | Except.error e =>
    ([], { st with fs := (save_articles slugify output st.fs articles).1 }, some e)
  | Except.ok file_hashes =>
    let staged := save_articles slugify output st.fs articles
    let remote_file_hashes := remote_lock_get st.lock
    let differences := get_dict_differences remote_file_hashes file_hashes
    let created := create_new_articles env staged.2 staged.1 st.artifact_index
      differences.new_keys
    let updated := update_new_articles env staged.2 staged.1 created.2
      differences.updated_keys
    (created.1 ++ updated.1,
      { fs := staged.1, artifact_index := updated.2, lock := some file_hashes }, none)

/-- `src/scraper/optiapi/models.py` `Category`: the field read by the harvest
traversal (`category.id`); the response metadata fields are never read. -/
structure Category where
  id : Int
deriving DecidableEq

/-- `src/scraper/optiapi/models.py` `Section`: the field read by the harvest
traversal (`section.id`). -/
structure Section where
  id : Int
deriving DecidableEq

/-- Oracle for the help-center HTTP API at the granularity of one complete
paginated listing (`get_all_categories`, `get_all_sections(category_id)`,
`get_all_articles(section_id)` in `src/scraper/optiapi/client.py`): each
listing either returns all of its items or raises the first failed page. -/
structure ScrapeEnv where
  categories : Except String (List Category)
  sectionsOf : Int → Except String (List Section)
  articlesOf : Int → Except String (List Article)

/-- `asyncio.gather` over one listing task per input: all results in input
order, or the exception of a failed task (when several tasks fail, Python
propagates the chronologically first exception; this model keeps the first in
input order, which coincides whenever a single listing fails). -/
def gatherListings {A B : Type} (f : A → Except String B) :
    List A → Except String (List B)
  | [] => Except.ok []
  | a :: rest =>
    match f a with
    | Except.error e => Except.error e
    | Except.ok b =>
      match gatherListings f rest with
      | Except.error e => Except.error e
      | Except.ok bs => Except.ok (b :: bs)

/-- `OptiSignsScraper._convert_body_to_markdown`: convert each truthy body
with `markdownify` (the external `md` parameter); falsy bodies are left
alone. -/
def convert_body_to_markdown (md : String → String) (articles : List Article) :
    List Article :=
  articles.map (fun a => if a.body = "" then a else { a with body := md a.body })

/-- `OptiSignsScraper.get_articles` (`harvest()`): list all categories, then
gather the sections of every category and flatten, then gather the articles
of every section and flatten, then convert every body to Markdown.  Any
listing failure propagates out of the corresponding `await`. -/
def get_articles (senv : ScrapeEnv) (md : String → String) :
    Except String (List Article) :=
  match senv.categories with
  | Except.error e => Except.error e
  | Except.ok categories =>
    match gatherListings (fun c => senv.sectionsOf c.id) categories with
    | Except.error e => Except.error e
    | Except.ok sectionss =>
      match gatherListings (fun s => senv.articlesOf s.id) sectionss.flatten with
      | Except.error e => Except.error e
      | Except.ok articless =>
        Except.ok (convert_body_to_markdown md articless.flatten)

section PyDictLemmas

variable {K V : Type} [DecidableEq K]

theorem pyGet?_eq_none_iff (d : PyDict K V) (k : K) :
    pyGet? d k = none ↔ k ∉ pyKeys d := by
  simp only [pyGet?, pyKeys, Option.map_eq_none', List.find?_eq_none, decide_eq_true_eq,
    List.mem_map, not_exists]
  aesop

theorem pyGet?_isSome_iff (d : PyDict K V) (k : K) :
    (pyGet? d k).isSome ↔ k ∈ pyKeys d := by
  constructor
  · intro hs
    by_contra hk
    rw [(pyGet?_eq_none_iff d k).mpr hk] at hs
    simp at hs
  · intro hk
    by_contra hs
    exact (pyGet?_eq_none_iff d k).mp (Option.not_isSome_iff_eq_none.mp hs) hk

theorem mem_pyKeys_of_pyGet?_eq_some {d : PyDict K V} {k : K} {v : V}
    (h : pyGet? d k = some v) : k ∈ pyKeys d := by
  have := pyGet?_isSome_iff d k
  rw [h] at this
  exact this.mp rfl

theorem pyGet?_cons (p : K × V) (t : PyDict K V) (k : K) :
    pyGet? (p :: t) k = if p.1 = k then some p.2 else pyGet? t k := by
  by_cases h : p.1 = k
  · simp [pyGet?, List.find?_cons_of_pos, h]
  · simp [pyGet?, List.find?_cons_of_neg, h]

theorem pyHasKey_iff_mem (d : PyDict K V) (k : K) :
    pyHasKey d k = true ↔ k ∈ pyKeys d := by
  simp [pyHasKey, pyKeys, List.any_eq_true]

theorem pyHasKey_append (d e : PyDict K V) (k : K) :
    pyHasKey (d ++ e) k = (pyHasKey d k || pyHasKey e k) := by
  simp [pyHasKey, List.any_append]

theorem pyGet?_append_left {d : PyDict K V} {k : K} {v : V}
    (h : pyGet? d k = some v) (e : PyDict K V) :
    pyGet? (d ++ e) k = some v := by
  induction d with
  | nil => simp [pyGet?] at h
  | cons p t ih =>
    rw [pyGet?_cons] at h
    rw [List.cons_append, pyGet?_cons]
    by_cases hp : p.1 = k
    · rwa [if_pos hp] at h ⊢
    · rw [if_neg hp] at h
      rw [if_neg hp]
      exact ih h

theorem pyGet?_append_right {d : PyDict K V} {k : K}
    (h : pyGet? d k = none) (e : PyDict K V) :
    pyGet? (d ++ e) k = pyGet? e k := by
  induction d with
  | nil => simp
  | cons p t ih =>
    rw [pyGet?_cons] at h
    rw [List.cons_append, pyGet?_cons]
    by_cases hp : p.1 = k
    · rw [if_pos hp] at h
      cases h
    · rw [if_neg hp] at h
      rw [if_neg hp]
      exact ih h

theorem pyGet?_eq_none_of_not_hasKey {d : PyDict K V} {k : K}
    (h : pyHasKey d k = false) : pyGet? d k = none := by
  rw [pyGet?_eq_none_iff]
  intro hk
  rw [(pyHasKey_iff_mem d k).mpr hk] at h
  cases h

theorem map_set_lookup_self {d : PyDict K V} {k : K} (v : V)
    (h : pyHasKey d k = true) :
    pyGet? (d.map (fun p => if p.1 = k then (k, v) else p)) k = some v := by
  induction d with
  | nil => simp [pyHasKey] at h
  | cons p t ih =>
    by_cases hp : p.1 = k
    · rw [List.map_cons, if_pos hp, pyGet?_cons]
      simp
    · rw [List.map_cons, if_neg hp, pyGet?_cons, if_neg hp]
      refine ih ?_
      have h2 := h
      simp only [pyHasKey, List.any_cons, Bool.or_eq_true, decide_eq_true_eq] at h2
      rcases h2 with h2 | h2
      · exact absurd h2 hp
      · simpa [pyHasKey] using h2

theorem map_set_lookup_ne {k k2 : K} (hne : k2 ≠ k) (d : PyDict K V) (v : V) :
    pyGet? (d.map (fun p => if p.1 = k then (k, v) else p)) k2 = pyGet? d k2 := by
  induction d with
  | nil => simp
  | cons p t ih =>
    by_cases hp : p.1 = k
    · rw [List.map_cons, if_pos hp, pyGet?_cons, pyGet?_cons,
        if_neg (fun h => hne h.symm), if_neg (fun h => hne (hp ▸ h).symm)]
      exact ih
    · rw [List.map_cons, if_neg hp, pyGet?_cons, pyGet?_cons]
      by_cases hp2 : p.1 = k2
      · rw [if_pos hp2, if_pos hp2]
      · rw [if_neg hp2, if_neg hp2]
        exact ih

theorem pyGet?_pySet_self (d : PyDict K V) (k : K) (v : V) :
    pyGet? (pySet d k v) k = some v := by
  unfold pySet
  by_cases h : pyHasKey d k
  · rw [if_pos h]
    exact map_set_lookup_self v h
  · rw [if_neg h]
    rw [pyGet?_append_right (pyGet?_eq_none_of_not_hasKey (Bool.of_not_eq_true h))]
    rw [pyGet?_cons]
    simp

theorem pyGet?_pySet_ne {k k2 : K} (hne : k2 ≠ k) (d : PyDict K V) (v : V) :
    pyGet? (pySet d k v) k2 = pyGet? d k2 := by
  unfold pySet
  by_cases h : pyHasKey d k
  · rw [if_pos h]
    exact map_set_lookup_ne hne d v
  · rw [if_neg h]
    rcases hd : pyGet? d k2 with _ | v2
    · rw [pyGet?_append_right hd, pyGet?_cons, if_neg (fun hh => hne hh.symm)]
      simp [pyGet?]
    · exact pyGet?_append_left hd _

theorem pyKeys_map_set (d : PyDict K V) (k : K) (v : V) :
    pyKeys (d.map (fun p => if p.1 = k then (k, v) else p)) = pyKeys d := by
  induction d with
  | nil => rfl
  | cons p t ih =>
    by_cases hp : p.1 = k
    · rw [List.map_cons, if_pos hp]
      simp only [pyKeys, List.map_cons] at ih ⊢
      rw [ih]
      simp [hp]
    · rw [List.map_cons, if_neg hp]
      simp only [pyKeys, List.map_cons] at ih ⊢
      rw [ih]

theorem pyKeys_pySet_not_has {d : PyDict K V} {k : K} (v : V)
    (h : pyHasKey d k = false) : pyKeys (pySet d k v) = pyKeys d ++ [k] := by
  unfold pySet
  rw [if_neg (by simp [h])]
  simp [pyKeys]

theorem nodup_pyKeys_pySet {d : PyDict K V} (k : K) (v : V)
    (h : (pyKeys d).Nodup) : (pyKeys (pySet d k v)).Nodup := by
  by_cases hk : pyHasKey d k
  · unfold pySet
    rw [if_pos hk, pyKeys_map_set]
    exact h
  · rw [pyKeys_pySet_not_has v (Bool.not_eq_true _ ▸ Bool.of_not_eq_true hk)]
    refine List.Nodup.append h (List.nodup_singleton k) ?_
    intro x hx hx2
    rw [List.mem_singleton.mp hx2] at hx
    rw [(pyHasKey_iff_mem d k).mpr hx] at hk
    exact hk rfl

theorem mem_pyKeys_pySet {d : PyDict K V} {k k2 : K} {v : V}
    (h : k2 ∈ pyKeys (pySet d k v)) : k2 ∈ pyKeys d ∨ k2 = k := by
  unfold pySet at h
  by_cases hk : pyHasKey d k
  · rw [if_pos hk, pyKeys_map_set] at h
    exact Or.inl h
  · rw [if_neg hk] at h
    simp only [pyKeys, List.map_append] at h
    rcases List.mem_append.mp h with h | h
    · exact Or.inl h
    · simp at h
      exact Or.inr h

theorem mem_pyKeys_pySet_iff {d : PyDict K V} {k k2 : K} {v : V} :
    k2 ∈ pyKeys (pySet d k v) ↔ (k2 ∈ pyKeys d ∨ k2 = k) := by
  by_cases hk : k2 = k
  · subst hk
    constructor
    · intro _
      exact Or.inr rfl
    · intro _
      rw [← pyGet?_isSome_iff, pyGet?_pySet_self]
      rfl
  · rw [← pyGet?_isSome_iff, pyGet?_pySet_ne hk, pyGet?_isSome_iff]
    constructor
    · intro h
      exact Or.inl h
    · rintro (h | h)
      · exact h
      · exact absurd h hk

theorem pyUpdate_eq_append {e : PyDict K V} : ∀ {d : PyDict K V},
    (∀ p ∈ e, pyHasKey d p.1 = false) → (pyKeys e).Nodup →
    pyUpdate d e = d ++ e := by
  induction e with
  | nil =>
    intro d _ _
    simp [pyUpdate]
  | cons p t ih =>
    intro d hdisj hnd
    have hp : pyHasKey d p.1 = false := hdisj p (List.mem_cons_self _ _)
    have hstep : pySet d p.1 p.2 = d ++ [p] := by
      unfold pySet
      rw [if_neg (by simp [hp])]
    have hnd2 : (pyKeys t).Nodup := by
      simpa [pyKeys] using hnd.of_cons
    have hdisj2 : ∀ q ∈ t, pyHasKey (d ++ [p]) q.1 = false := by
      intro q hq
      rw [pyHasKey_append]
      have h1 : pyHasKey d q.1 = false := hdisj q (List.mem_cons_of_mem _ hq)
      have h2 : q.1 ≠ p.1 := by
        intro hcontra
        have : p.1 ∈ pyKeys t := by
          rw [← hcontra]
          exact List.mem_map_of_mem _ hq
        simp only [pyKeys, List.map_cons] at hnd
        exact (List.nodup_cons.mp hnd).1 this
      have h3 : pyHasKey [p] q.1 = false := by
        simp [pyHasKey, Ne.symm h2]
      simp [h1, h3]
    calc pyUpdate d (p :: t) = pyUpdate (pySet d p.1 p.2) t := rfl
    _ = pyUpdate (d ++ [p]) t := by rw [hstep]
    _ = (d ++ [p]) ++ t := ih hdisj2 hnd2
    _ = d ++ (p :: t) := by simp

theorem mem_pySet {K V : Type} [DecidableEq K] {d : PyDict K V} {k : K} {v : V}
    {q : K × V} (hq : q ∈ pySet d k v) : q ∈ d ∨ q = (k, v) := by
  unfold pySet at hq
  by_cases h : pyHasKey d k
  · rw [if_pos h] at hq
    obtain ⟨p, hp, hpq⟩ := List.mem_map.mp hq
    by_cases hpk : p.1 = k
    · right
      rw [if_pos hpk] at hpq
      exact hpq.symm
    · left
      rw [if_neg hpk] at hpq
      exact hpq ▸ hp
  · rw [if_neg h] at hq
    rcases List.mem_append.mp hq with h1 | h1
    · exact Or.inl h1
    · exact Or.inr (List.mem_singleton.mp h1)

theorem mem_of_pyGet?_eq_some {K V : Type} [DecidableEq K] {d : PyDict K V}
    {k : K} {v : V} (h : pyGet? d k = some v) : (k, v) ∈ d := by
  unfold pyGet? at h
  rcases hf : d.find? (fun p => p.1 = k) with _ | q
  · rw [hf] at h
    simp at h
  · rw [hf] at h
    have hq : q ∈ d := List.mem_of_find?_eq_some hf
    have hk : q.1 = k := by simpa using List.find?_some hf
    have hv : q.2 = v := by simpa using h
    have : q = (k, v) := Prod.ext hk hv
    exact this ▸ hq

end PyDictLemmas

section HsetLemmas

theorem hsetMapping_lookup (m : PyDict PyKey String) :
    ∀ (h : PyDict String String) (k : String),
      pyGet? (hsetMapping h m) k =
        match lastValFor m k with
        | some v => some v
        | none => pyGet? h k := by
  induction m with
  | nil =>
    intro h k
    rfl
  | cons p t ih =>
    intro h k
    have hstep : hsetMapping h (p :: t) = hsetMapping (pySet h p.1.toStr p.2) t := rfl
    rcases ht : lastValFor t k with _ | v
    · by_cases hp : p.1.toStr = k
      · have hl : lastValFor (p :: t) k = some p.2 := by
          simp only [lastValFor]
          rw [ht, if_pos hp]
        rw [hstep, ih, ht, hl]
        rw [hp]
        exact pyGet?_pySet_self h k p.2
      · have hl : lastValFor (p :: t) k = none := by
          simp only [lastValFor]
          rw [ht, if_neg hp]
        rw [hstep, ih, ht, hl]
        exact pyGet?_pySet_ne (fun hh => hp hh.symm) h p.2
    · have hl : lastValFor (p :: t) k = some v := by
        simp only [lastValFor]
        rw [ht]
      rw [hstep, ih, ht, hl]

theorem lastValFor_append (d e : PyDict PyKey String) (k : String) :
    lastValFor (d ++ e) k =
      match lastValFor e k with
      | some v => some v
      | none => lastValFor d k := by
  induction d with
  | nil =>
    rcases he : lastValFor e k with _ | v
    · rw [List.nil_append, he]
      rfl
    · rw [List.nil_append, he]
  | cons p t ih =>
    rw [List.cons_append]
    simp only [lastValFor]
    rw [ih]
    rcases he : lastValFor e k with _ | v
    · rfl
    · rfl

theorem lastValFor_none_of {m : PyDict PyKey String} {k : String}
    (h : ∀ p ∈ m, p.1.toStr ≠ k) : lastValFor m k = none := by
  induction m with
  | nil => rfl
  | cons p t ih =>
    simp only [lastValFor]
    rw [ih (fun q hq => h q (List.mem_cons_of_mem _ hq))]
    exact if_neg (h p (List.mem_cons_self _ _))

theorem lastValFor_mem {m : PyDict PyKey String} {k : String} {v : String}
    (h : lastValFor m k = some v) : ∃ p ∈ m, p.1.toStr = k ∧ p.2 = v := by
  induction m with
  | nil => cases h
  | cons p t ih =>
    simp only [lastValFor] at h
    rcases ht : lastValFor t k with _ | w
    · rw [ht] at h
      by_cases hp : p.1.toStr = k
      · rw [if_pos hp] at h
        injection h with hv
        exact ⟨p, List.mem_cons_self _ _, hp, hv⟩
      · rw [if_neg hp] at h
        cases h
    · rw [ht] at h
      injection h with hv
      rcases ih (hv ▸ ht) with ⟨q, hq, hq1, hq2⟩
      exact ⟨q, List.mem_cons_of_mem _ hq, hq1, hq2⟩

theorem lastValFor_map_pstr {h : PyDict String String} (hn : (pyKeys h).Nodup)
    (k : String) :
    lastValFor (h.map (fun p => (PyKey.pstr p.1, p.2))) k = pyGet? h k := by
  induction h with
  | nil => rfl
  | cons p t ih =>
    have hn2 : (pyKeys t).Nodup := by
      simpa [pyKeys] using List.Nodup.of_cons (by simpa [pyKeys] using hn)
    have hnotin : p.1 ∉ pyKeys t := by
      simp only [pyKeys, List.map_cons, List.nodup_cons] at hn
      exact hn.1
    rw [List.map_cons]
    simp only [lastValFor]
    rw [ih hn2, pyGet?_cons]
    by_cases hp : p.1 = k
    · have hnone : pyGet? t k = none := by
        rw [pyGet?_eq_none_iff, ← hp]
        exact hnotin
      rw [hnone, if_pos hp]
      exact if_pos (show (PyKey.pstr p.1).toStr = k from hp)
    · rw [if_neg hp]
      rcases ht : pyGet? t k with _ | v
      · exact if_neg (show ¬ (PyKey.pstr p.1).toStr = k from hp)
      · rfl

theorem nodup_pyKeys_hsetMapping (m : PyDict PyKey String) :
    ∀ (h : PyDict String String), (pyKeys h).Nodup →
      (pyKeys (hsetMapping h m)).Nodup := by
  induction m with
  | nil =>
    intro h hn
    exact hn
  | cons p t ih =>
    intro h hn
    exact ih (pySet h p.1.toStr p.2) (nodup_pyKeys_pySet _ _ hn)

end HsetLemmas

section ArticleMapLemmas

theorem aoim_step_eq_of_none (succ : PyDict String String)
    (acc : PyDict PyKey String) {a : Article} (hfp : a.file_path = none) :
    aoim_step succ acc a = acc := by
  unfold aoim_step
  rw [hfp]

theorem aoim_step_eq_of_nosucc (succ : PyDict String String)
    (acc : PyDict PyKey String) {a : Article} {q : String}
    (hfp : a.file_path = some q) (hsu : pyGet? succ q = none) :
    aoim_step succ acc a = acc := by
  unfold aoim_step
  rw [hfp]
  show (match pyGet? succ q with
    | some fid => pySet acc (PyKey.pint a.id) fid
    | none => acc) = acc
  rw [hsu]

theorem aoim_step_eq_of_succ (succ : PyDict String String)
    (acc : PyDict PyKey String) {a : Article} {q fid : String}
    (hfp : a.file_path = some q) (hsu : pyGet? succ q = some fid) :
    aoim_step succ acc a = pySet acc (PyKey.pint a.id) fid := by
  unfold aoim_step
  rw [hfp]
  show (match pyGet? succ q with
    | some fid => pySet acc (PyKey.pint a.id) fid
    | none => acc) = pySet acc (PyKey.pint a.id) fid
  rw [hsu]

theorem aoim_foldl_inv (succ : PyDict String String) (P : PyKey → String → Prop)
    (hstep : ∀ (a : Article) (q : String) (fid : String), a.file_path = some q →
      pyGet? succ q = some fid → P (PyKey.pint a.id) fid) :
    ∀ (cur : List Article) (acc : PyDict PyKey String),
      (∀ p ∈ acc, P p.1 p.2) →
      ∀ p ∈ cur.foldl (aoim_step succ) acc, P p.1 p.2 := by
  intro cur
  induction cur with
  | nil =>
    intro acc hacc
    exact hacc
  | cons a t ih =>
    intro acc hacc
    refine ih (aoim_step succ acc a) ?_
    intro p hp
    rcases hfp : a.file_path with _ | q
    · rw [aoim_step_eq_of_none succ acc hfp] at hp
      exact hacc p hp
    · rcases hsu : pyGet? succ q with _ | fid
      · rw [aoim_step_eq_of_nosucc succ acc hfp hsu] at hp
        exact hacc p hp
      · rw [aoim_step_eq_of_succ succ acc hfp hsu] at hp
        rcases mem_pySet hp with h | h
        · exact hacc p h
        · rw [h]
          exact hstep a q fid hfp hsu

theorem aoim_entries_sound (cur : List Article) (succ : PyDict String String) :
    ∀ p ∈ article_openai_id_map cur succ,
      (∃ i, p.1 = PyKey.pint i) ∧ ∃ q, pyGet? succ q = some p.2 := by
  refine aoim_foldl_inv succ
    (fun key v => (∃ i, key = PyKey.pint i) ∧ ∃ q, pyGet? succ q = some v) ?_ cur []
    (by intro p hp; cases hp)
  intro a q fid _ hsu
  exact ⟨⟨a.id, rfl⟩, q, hsu⟩

theorem aoim_nodup (succ : PyDict String String) :
    ∀ (cur : List Article) (acc : PyDict PyKey String), (pyKeys acc).Nodup →
      (pyKeys (cur.foldl (aoim_step succ) acc)).Nodup := by
  intro cur
  induction cur with
  | nil =>
    intro acc hacc
    exact hacc
  | cons a t ih =>
    intro acc hacc
    refine ih (aoim_step succ acc a) ?_
    rcases hfp : a.file_path with _ | q
    · rw [aoim_step_eq_of_none succ acc hfp]
      exact hacc
    · rcases hsu : pyGet? succ q with _ | fid
      · rw [aoim_step_eq_of_nosucc succ acc hfp hsu]
        exact hacc
      · rw [aoim_step_eq_of_succ succ acc hfp hsu]
        exact nodup_pyKeys_pySet _ _ hacc

theorem aoim_preserves (succ : PyDict String String) (κ : PyKey) :
    ∀ (cur : List Article) (acc : PyDict PyKey String),
      (∀ a ∈ cur, PyKey.pint a.id ≠ κ) →
      pyGet? (cur.foldl (aoim_step succ) acc) κ = pyGet? acc κ := by
  intro cur
  induction cur with
  | nil =>
    intro acc _
    rfl
  | cons a t ih =>
    intro acc hne
    rw [List.foldl_cons,
      ih (aoim_step succ acc a) (fun b hb => hne b (List.mem_cons_of_mem _ hb))]
    rcases hfp : a.file_path with _ | q
    · rw [aoim_step_eq_of_none succ acc hfp]
    · rcases hsu : pyGet? succ q with _ | fid
      · rw [aoim_step_eq_of_nosucc succ acc hfp hsu]
      · rw [aoim_step_eq_of_succ succ acc hfp hsu]
        exact pyGet?_pySet_ne (Ne.symm (hne a (List.mem_cons_self _ _))) acc fid

theorem aoim_lookup (succ : PyDict String String) :
    ∀ (cur : List Article) {a : Article} {q fid : String},
      (cur.map (fun b => b.id)).Nodup → a ∈ cur → a.file_path = some q →
      pyGet? succ q = some fid →
      pyGet? (article_openai_id_map cur succ) (PyKey.pint a.id) = some fid := by
  have main : ∀ (cur : List Article) (acc : PyDict PyKey String) {a : Article}
      {q fid : String}, (cur.map (fun b => b.id)).Nodup → a ∈ cur →
      a.file_path = some q → pyGet? succ q = some fid →
      pyGet? (cur.foldl (aoim_step succ) acc) (PyKey.pint a.id) = some fid := by
    intro cur
    induction cur with
    | nil =>
      intro acc a q fid _ ha
      cases ha
    | cons b t ih =>
      intro acc a q fid hnd ha hfp hsu
      rcases List.mem_cons.mp ha with h | h
      · subst h
        have hne : ∀ c ∈ t, PyKey.pint c.id ≠ PyKey.pint a.id := by
          intro c hc hcontra
          have hcid : c.id = a.id := by
            injection hcontra
          have : a.id ∈ t.map (fun b => b.id) := by
            rw [← hcid]
            exact List.mem_map_of_mem _ hc
          simp only [List.map_cons, List.nodup_cons] at hnd
          exact hnd.1 this
        rw [List.foldl_cons,
          aoim_preserves succ (PyKey.pint a.id) t (aoim_step succ acc a) hne,
          aoim_step_eq_of_succ succ acc hfp hsu]
        exact pyGet?_pySet_self acc (PyKey.pint a.id) fid
      · have hnd2 : (t.map (fun b => b.id)).Nodup := by
          simp only [List.map_cons, List.nodup_cons] at hnd
          exact hnd.2
        exact ih (aoim_step succ acc b) hnd2 h hfp hsu
  intro cur a q fid hnd ha hfp hsu
  exact main cur [] hnd ha hfp hsu

end ArticleMapLemmas

section SaveIdsLemmas

theorem pstr_keys_not_hasKey (h : PyDict String String) (i : Int) :
    pyHasKey (h.map (fun p => (PyKey.pstr p.1, p.2))) (PyKey.pint i) = false := by
  induction h with
  | nil => rfl
  | cons p t ih =>
    simp only [List.map_cons, pyHasKey, List.any_cons]
    simpa [pyHasKey] using ih

theorem merged_eq_append (cur : List Article) (succ : PyDict String String)
    (redis_hash : PyDict String String) :
    pyUpdate (redis_hash.map (fun p => (PyKey.pstr p.1, p.2)))
        (article_openai_id_map cur succ) =
      redis_hash.map (fun p => (PyKey.pstr p.1, p.2)) ++
        article_openai_id_map cur succ := by
  refine pyUpdate_eq_append ?_ ?_
  · intro p hp
    rcases (aoim_entries_sound cur succ p hp).1 with ⟨i, hi⟩
    rw [hi]
    exact pstr_keys_not_hasKey redis_hash i
  · exact aoim_nodup succ cur [] List.nodup_nil

theorem save_ids_frame (cur : List Article) (succ : PyDict String String)
    (redis_hash : PyDict String String) (k : String)
    (hnd : (pyKeys redis_hash).Nodup)
    (hk : k ∉ (article_openai_id_map cur succ).map (fun p => p.1.toStr)) :
    pyGet? (save_article_openai_file_ids cur succ redis_hash) k =
      pyGet? redis_hash k := by
  unfold save_article_openai_file_ids
  by_cases hsu : succ = ([] : PyDict String String)
  · rw [if_pos hsu]
  · rw [if_neg hsu]
    simp only
    rw [merged_eq_append, hsetMapping_lookup, lastValFor_append]
    have hm : lastValFor (article_openai_id_map cur succ) k = none := by
      refine lastValFor_none_of ?_
      intro p hp hcontra
      exact hk (List.mem_map.mpr ⟨p, hp, hcontra⟩)
    rw [hm, lastValFor_map_pstr hnd]
    rcases pyGet? redis_hash k with _ | v
    · rfl
    · rfl

theorem save_ids_nodup (cur : List Article) (succ : PyDict String String)
    (redis_hash : PyDict String String) (hnd : (pyKeys redis_hash).Nodup) :
    (pyKeys (save_article_openai_file_ids cur succ redis_hash)).Nodup := by
  unfold save_article_openai_file_ids
  by_cases hsu : succ = ([] : PyDict String String)
  · rw [if_pos hsu]
    exact hnd
  · rw [if_neg hsu]
    exact nodup_pyKeys_hsetMapping _ redis_hash hnd

theorem save_ids_sound (cur : List Article) (succ : PyDict String String)
    (redis_hash : PyDict String String) (k : String)
    (hnd : (pyKeys redis_hash).Nodup)
    (hch : pyGet? (save_article_openai_file_ids cur succ redis_hash) k ≠
      pyGet? redis_hash k) :
    ∃ q fid, pyGet? succ q = some fid ∧
      pyGet? (save_article_openai_file_ids cur succ redis_hash) k = some fid := by
  unfold save_article_openai_file_ids at hch ⊢
  by_cases hsu : succ = ([] : PyDict String String)
  · rw [if_pos hsu] at hch
    exact absurd rfl hch
  · rw [if_neg hsu] at hch ⊢
    simp only at hch ⊢
    rw [merged_eq_append, hsetMapping_lookup, lastValFor_append] at hch ⊢
    rcases hm : lastValFor (article_openai_id_map cur succ) k with _ | v
    · rw [hm, lastValFor_map_pstr hnd] at hch
      exfalso
      apply hch
      rcases pyGet? redis_hash k with _ | v
      · rfl
      · rfl
    · rcases lastValFor_mem hm with ⟨p, hp, _, hpv⟩
      rcases (aoim_entries_sound cur succ p hp).2 with ⟨q, hq⟩
      exact ⟨q, v, hpv ▸ hq, rfl⟩

end SaveIdsLemmas

section GenHashLemmas

theorem except_bind_ok {α β : Type} (x : α) (f : α → Except String β) :
    (Except.ok x >>= f) = f x := rfl

theorem gfh_step_empty {sha : String → String} {res : PyDict Int String}
    {a : Article} (h : a.body = "") :
    gfh_step sha res a =
      Except.error ("Article " ++ a.name ++ " has no body content.") := by
  unfold gfh_step
  rw [if_pos h]

theorem gfh_step_ok {sha : String → String} {res : PyDict Int String}
    {a : Article} (h : ¬ a.body = "") :
    gfh_step sha res a = Except.ok (pySet res a.id (sha a.body)) := by
  unfold gfh_step
  rw [if_neg h]

theorem gfh_go_error_of_empty (sha : String → String) :
    ∀ (l : List Article) {a : Article}, a ∈ l → a.body = "" →
      ∀ res, ∃ e, l.foldlM (gfh_step sha) res = Except.error e := by
  intro l
  induction l with
  | nil =>
    intro a ha
    cases ha
  | cons b t ih =>
    intro a ha hbody res
    by_cases hb : b.body = ""
    · refine ⟨"Article " ++ b.name ++ " has no body content.", ?_⟩
      rw [List.foldlM_cons, gfh_step_empty hb]
      rfl
    · rcases List.mem_cons.mp ha with h | h
      · exact absurd (h ▸ hbody) hb
      · rcases ih h hbody (pySet res b.id (sha b.body)) with ⟨e, he⟩
        refine ⟨e, ?_⟩
        rw [List.foldlM_cons, gfh_step_ok hb, except_bind_ok]
        exact he

theorem gfh_go_ok_of_all (sha : String → String) :
    ∀ (l : List Article), (∀ a ∈ l, a.body ≠ "") →
      ∀ res, ∃ d, l.foldlM (gfh_step sha) res = Except.ok d := by
  intro l
  induction l with
  | nil =>
    intro _ res
    exact ⟨res, rfl⟩
  | cons b t ih =>
    intro hall res
    rcases ih (fun a ha => hall a (List.mem_cons_of_mem _ ha))
      (pySet res b.id (sha b.body)) with ⟨d, hd⟩
    refine ⟨d, ?_⟩
    rw [List.foldlM_cons, gfh_step_ok (hall b (List.mem_cons_self _ _)), except_bind_ok]
    exact hd

theorem gfh_error_iff (sha : String → String) (l : List Article) :
    (∃ e, generate_file_hashes sha l = Except.error e) ↔ ∃ a ∈ l, a.body = "" := by
  constructor
  · intro he
    rcases he with ⟨e, he⟩
    by_contra hno
    push_neg at hno
    rcases gfh_go_ok_of_all sha l hno [] with ⟨d, hd⟩
    rw [generate_file_hashes, hd] at he
    cases he
  · intro hx
    rcases hx with ⟨a, ha, hbody⟩
    exact gfh_go_error_of_empty sha l ha hbody []

theorem gfh_go_preserves (sha : String → String) (k : Int) :
    ∀ (l : List Article) (res d : PyDict Int String),
      (∀ a ∈ l, a.id ≠ k) → l.foldlM (gfh_step sha) res = Except.ok d →
      pyGet? d k = pyGet? res k := by
  intro l
  induction l with
  | nil =>
    intro res d _ hok
    have h2 : (Except.ok res : Except String (PyDict Int String)) = Except.ok d := hok
    injection h2 with h3
    rw [← h3]
  | cons b t ih =>
    intro res d hne hok
    by_cases hb : b.body = ""
    · rw [List.foldlM_cons, gfh_step_empty hb] at hok
      have h2 : (Except.error ("Article " ++ b.name ++ " has no body content.") :
        Except String (PyDict Int String)) = Except.ok d := hok
      cases h2
    · rw [List.foldlM_cons, gfh_step_ok hb, except_bind_ok] at hok
      rw [ih (pySet res b.id (sha b.body)) d
        (fun a ha => hne a (List.mem_cons_of_mem _ ha)) hok]
      exact pyGet?_pySet_ne (Ne.symm (hne b (List.mem_cons_self _ _))) res (sha b.body)

theorem gfh_lookup (sha : String → String) :
    ∀ (l : List Article) (res d : PyDict Int String) {a : Article},
      (l.map (fun b => b.id)).Nodup → a ∈ l →
      l.foldlM (gfh_step sha) res = Except.ok d →
      pyGet? d a.id = some (sha a.body) := by
  intro l
  induction l with
  | nil =>
    intro res d a _ ha
    cases ha
  | cons b t ih =>
    intro res d a hnd ha hok
    by_cases hb : b.body = ""
    · rw [List.foldlM_cons, gfh_step_empty hb] at hok
      have h2 : (Except.error ("Article " ++ b.name ++ " has no body content.") :
        Except String (PyDict Int String)) = Except.ok d := hok
      cases h2
    · rw [List.foldlM_cons, gfh_step_ok hb, except_bind_ok] at hok
      rcases List.mem_cons.mp ha with h | h
      · subst h
        have hne : ∀ c ∈ t, c.id ≠ a.id := by
          intro c hc hcontra
          have hmem : a.id ∈ t.map (fun b => b.id) := by
            rw [← hcontra]
            exact List.mem_map_of_mem _ hc
          simp only [List.map_cons, List.nodup_cons] at hnd
          exact hnd.1 hmem
        rw [gfh_go_preserves sha a.id t _ d hne hok]
        exact pyGet?_pySet_self res a.id (sha a.body)
      · have hnd2 : (t.map (fun b => b.id)).Nodup := by
          simp only [List.map_cons, List.nodup_cons] at hnd
          exact hnd.2
        exact ih _ d hnd2 h hok

theorem gfh_mem_keys (sha : String → String) :
    ∀ (l : List Article) (res d : PyDict Int String),
      l.foldlM (gfh_step sha) res = Except.ok d →
      ∀ k, k ∈ pyKeys d ↔ (k ∈ pyKeys res ∨ ∃ a ∈ l, a.id = k) := by
  intro l
  induction l with
  | nil =>
    intro res d hok k
    have h2 : (Except.ok res : Except String (PyDict Int String)) = Except.ok d := hok
    injection h2 with h3
    subst h3
    simp
  | cons b t ih =>
    intro res d hok k
    by_cases hb : b.body = ""
    · rw [List.foldlM_cons, gfh_step_empty hb] at hok
      have h2 : (Except.error ("Article " ++ b.name ++ " has no body content.") :
        Except String (PyDict Int String)) = Except.ok d := hok
      cases h2
    · rw [List.foldlM_cons, gfh_step_ok hb, except_bind_ok] at hok
      rw [ih _ d hok k]
      constructor
      · rintro (h | h)
        · rcases mem_pyKeys_pySet_iff.mp h with h2 | h2
          · exact Or.inl h2
          · exact Or.inr ⟨b, List.mem_cons_self _ _, h2.symm⟩
        · rcases h with ⟨a, ha, hk⟩
          exact Or.inr ⟨a, List.mem_cons_of_mem _ ha, hk⟩
      · rintro (h | h)
        · exact Or.inl (mem_pyKeys_pySet_iff.mpr (Or.inl h))
        · rcases h with ⟨a, ha, hk⟩
          rcases List.mem_cons.mp ha with h2 | h2
          · refine Or.inl (mem_pyKeys_pySet_iff.mpr (Or.inr ?_))
            rw [← hk, h2]
          · exact Or.inr ⟨a, h2, hk⟩

end GenHashLemmas

section StageLemmas

theorem save_articles_snd_aux (slugify : String → String) (output : String) :
    ∀ (articles : List Article) (fs : PyDict String String) (acc : List Article),
      (articles.foldl (save_step slugify output) (fs, acc)).2 =
        acc ++ articles.map (fun a =>
          { a with file_path := some (staged_path slugify output a) }) := by
  intro articles
  induction articles with
  | nil =>
    intro fs acc
    simp
  | cons a t ih =>
    intro fs acc
    rw [List.foldl_cons]
    rw [show save_step slugify output (fs, acc) a =
      (pySet fs (staged_path slugify output a) a.body,
        acc ++ [{ a with file_path := some (staged_path slugify output a) }]) from rfl]
    rw [ih]
    simp

theorem save_articles_snd (slugify : String → String) (output : String)
    (fs : PyDict String String) (articles : List Article) :
    (save_articles slugify output fs articles).2 =
      articles.map (fun a =>
        { a with file_path := some (staged_path slugify output a) }) := by
  unfold save_articles
  rw [save_articles_snd_aux]
  simp

theorem save_articles_fst_aux (slugify : String → String) (output : String) :
    ∀ (articles : List Article) (fs : PyDict String String) (acc : List Article),
      (articles.foldl (save_step slugify output) (fs, acc)).1 =
        stage_fs slugify output fs articles := by
  intro articles
  induction articles with
  | nil =>
    intro fs acc
    rfl
  | cons a t ih =>
    intro fs acc
    rw [List.foldl_cons]
    rw [show save_step slugify output (fs, acc) a =
      (pySet fs (staged_path slugify output a) a.body,
        acc ++ [{ a with file_path := some (staged_path slugify output a) }]) from rfl]
    rw [ih]
    rfl

theorem save_articles_fst (slugify : String → String) (output : String)
    (fs : PyDict String String) (articles : List Article) :
    (save_articles slugify output fs articles).1 =
      stage_fs slugify output fs articles := by
  unfold save_articles
  rw [save_articles_fst_aux]

theorem gfh_map_staged (sha slugify : String → String) (output : String) :
    ∀ (l : List Article) (res : PyDict Int String),
      (l.map (fun a =>
          { a with file_path := some (staged_path slugify output a) })).foldlM
          (gfh_step sha) res =
        l.foldlM (gfh_step sha) res := by
  intro l
  induction l with
  | nil =>
    intro res
    rfl
  | cons a t ih =>
    intro res
    rw [List.map_cons, List.foldlM_cons, List.foldlM_cons]
    rw [show gfh_step sha res
      { a with file_path := some (staged_path slugify output a) } =
      gfh_step sha res a from rfl]
    rcases hs : gfh_step sha res a with e | r
    · rfl
    · exact ih r

theorem gfh_staged_eq (sha slugify : String → String) (output : String)
    (fs : PyDict String String) (articles : List Article) :
    generate_file_hashes sha (save_articles slugify output fs articles).2 =
      generate_file_hashes sha articles := by
  unfold generate_file_hashes
  rw [save_articles_snd, gfh_map_staged]

theorem stage_fs_append (slugify : String → String) (output : String)
    (fs : PyDict String String) (l1 l2 : List Article) :
    stage_fs slugify output fs (l1 ++ l2) =
      stage_fs slugify output (stage_fs slugify output fs l1) l2 := by
  unfold stage_fs
  rw [List.foldl_append]

theorem stage_fs_preserves (slugify : String → String) (output : String)
    (p : String) :
    ∀ (l : List Article) (fs : PyDict String String),
      (∀ b ∈ l, staged_path slugify output b ≠ p) →
      pyGet? (stage_fs slugify output fs l) p = pyGet? fs p := by
  intro l
  induction l with
  | nil =>
    intro fs _
    rfl
  | cons b t ih =>
    intro fs hne
    have hstep := ih (pySet fs (staged_path slugify output b) b.body)
      (fun c hc => hne c (List.mem_cons_of_mem _ hc))
    unfold stage_fs at hstep ⊢
    rw [List.foldl_cons, hstep]
    exact pyGet?_pySet_ne
      (fun h => (hne b (List.mem_cons_self _ _)) h.symm) fs b.body

end StageLemmas

section UploaderLemmas

theorem batch_foldl_failed_mono (results : List (List Event × String × Option String))
    (acc : PyDict String String × List String) {s : String} (hs : s ∈ acc.2) :
    s ∈ (results.foldl batch_step acc).2 := by
  induction results generalizing acc with
  | nil => exact hs
  | cons r rs ih =>
    apply ih
    obtain ⟨evs, pth, out⟩ := r
    rcases out with _ | fid
    · simp only [batch_step]
      exact List.mem_append_left _ hs
    · by_cases hfid : fid = ""
      · simp only [batch_step, if_pos hfid]
        exact List.mem_append_left _ hs
      · simp only [batch_step, if_neg hfid]
        exact hs

theorem batch_foldl_failed_of_mem (results : List (List Event × String × Option String))
    (acc : PyDict String String × List String)
    {r : List Event × String × Option String} (hr : r ∈ results)
    (hfail : uploadOutcomeFailed r.2.2 = true) :
    (r.2.1 ++ " (Upload failed)") ∈ (results.foldl batch_step acc).2 := by
  induction results generalizing acc with
  | nil => cases hr
  | cons a rs ih =>
    rcases List.mem_cons.mp hr with h | h
    · subst h
      have hstep : (r.2.1 ++ " (Upload failed)") ∈ (batch_step acc r).2 := by
        obtain ⟨evs, pth, out⟩ := r
        rcases out with _ | fid
        · simp [batch_step]
        · have hfid : fid = "" := by simpa [uploadOutcomeFailed] using hfail
          simp [batch_step, hfid]
      exact batch_foldl_failed_mono rs (batch_step acc r) hstep
    · exact ih (batch_step acc a) h

theorem batch_foldl_successful_inv (results : List (List Event × String × Option String))
    (acc : PyDict String String × List String) (P : String → String → Prop)
    (hacc : ∀ q ∈ acc.1, P q.1 q.2)
    (hres : ∀ r ∈ results, ∀ fid, r.2.2 = some fid → P r.2.1 fid) :
    ∀ q ∈ (results.foldl batch_step acc).1, P q.1 q.2 := by
  induction results generalizing acc with
  | nil => exact hacc
  | cons a rs ih =>
    refine ih _ ?_ (fun r hr => hres r (List.mem_cons_of_mem _ hr))
    intro q hq
    obtain ⟨evs, pth, out⟩ := a
    rcases hout : out with _ | fid
    · subst hout
      exact hacc q (by simpa [batch_step] using hq)
    · subst hout
      by_cases hfid : fid = ""
      · exact hacc q (by simpa [batch_step, hfid] using hq)
      · have hq2 : q ∈ pySet acc.1 pth fid := by simpa [batch_step, hfid] using hq
        rcases mem_pySet hq2 with h | h
        · exact hacc q h
        · rw [h]
          exact hres _ (List.mem_cons_self _ _) fid rfl

theorem batch_foldl_failed_shape (results : List (List Event × String × Option String))
    (acc : PyDict String String × List String) (Q : String → Prop)
    (hacc : ∀ s ∈ acc.2, Q s)
    (hres : ∀ r ∈ results, Q (r.2.1 ++ " (Upload failed)")) :
    ∀ s ∈ (results.foldl batch_step acc).2, Q s := by
  induction results generalizing acc with
  | nil => exact hacc
  | cons a rs ih =>
    refine ih (batch_step acc a) ?_ (fun r hr => hres r (List.mem_cons_of_mem _ hr))
    intro s hsm
    obtain ⟨evs, pth, out⟩ := a
    rcases out with _ | fid
    · have hsm2 : s ∈ acc.2 ++ [pth ++ " (Upload failed)"] := by
        simpa only [batch_step] using hsm
      rcases List.mem_append.mp hsm2 with h | h
      · exact hacc s h
      · rw [List.mem_singleton.mp h]
        exact hres _ (List.mem_cons_self _ _)
    · by_cases hfid : fid = ""
      · have hsm2 : s ∈ acc.2 ++ [pth ++ " (Upload failed)"] := by
          simpa only [batch_step, if_pos hfid] using hsm
        rcases List.mem_append.mp hsm2 with h | h
        · exact hacc s h
        · rw [List.mem_singleton.mp h]
          exact hres _ (List.mem_cons_self _ _)
      · have hsm2 : s ∈ acc.2 := by
          simpa only [batch_step, if_neg hfid] using hsm
        exact hacc s hsm2

theorem upload_file_async_events (env : UploadEnv) (fs : PyDict String String)
    (p : String) {e : Event} (he : e ∈ (upload_file_async env fs p).1) :
    e = Event.uploadCall p := by
  unfold upload_file_async at he
  by_cases h : pyHasKey fs p
  · rw [if_pos h] at he
    simpa using he
  · rw [if_neg h] at he
    simp at he

theorem batch_events_shape (env : UploadEnv) (fs : PyDict String String)
    (file_paths : List String) {e : Event}
    (he : e ∈ (upload_files_batch env fs file_paths).1) :
    (∃ q ∈ file_paths, e = Event.uploadCall q) ∨ e = Event.refreshCall := by
  unfold upload_files_batch at he
  simp only at he
  rcases List.mem_append.mp he with h | h
  · obtain ⟨l, hl, hel⟩ := List.mem_flatten.mp h
    obtain ⟨r, hr, hrl⟩ := List.mem_map.mp hl
    obtain ⟨q, hq, hqr⟩ := List.mem_map.mp hr
    left
    refine ⟨q, hq, ?_⟩
    subst hqr
    rw [← hrl] at hel
    exact upload_file_async_events env fs q hel
  · right
    by_cases hc : (((file_paths.map (upload_file_async env fs)).foldl batch_step ([], [])).1 :
        PyDict String String) = []
    · rw [if_pos hc] at h
      simp at h
    · rw [if_neg hc] at h
      simpa using h

theorem batch_successful_sound (env : UploadEnv) (fs : PyDict String String)
    (file_paths : List String) :
    ∀ q ∈ (upload_files_batch env fs file_paths).2.successful_uploads,
      env.uploadResult q.1 = some q.2 ∧ q.1 ∈ file_paths := by
  intro q hq
  unfold upload_files_batch at hq
  simp only at hq
  refine batch_foldl_successful_inv _ ([], [])
    (fun a b => env.uploadResult a = some b ∧ a ∈ file_paths) (by simp) ?_ q hq
  intro r hr fid hfid
  obtain ⟨p, hp, hpr⟩ := List.mem_map.mp hr
  subst hpr
  unfold upload_file_async at hfid ⊢
  by_cases h : pyHasKey fs p
  · rw [if_pos h] at hfid ⊢
    simp only at hfid ⊢
    exact ⟨hfid, by simpa [h] using hp⟩
  · rw [if_neg h] at hfid
    simp at hfid

theorem upload_file_async_path (env : UploadEnv) (fs : PyDict String String)
    (p : String) : (upload_file_async env fs p).2.1 = p := by
  unfold upload_file_async
  by_cases h : pyHasKey fs p
  · rw [if_pos h]
  · rw [if_neg h]

theorem upload_file_async_events_pos (env : UploadEnv) (fs : PyDict String String)
    (p : String) (h : pyHasKey fs p = true) :
    (upload_file_async env fs p).1 = [Event.uploadCall p] := by
  unfold upload_file_async
  rw [if_pos h]

theorem upload_file_async_congr {env env2 : UploadEnv}
    (hup : env.uploadResult = env2.uploadResult) (fs : PyDict String String)
    (p : String) : upload_file_async env fs p = upload_file_async env2 fs p := by
  unfold upload_file_async
  rw [hup]

theorem upload_files_batch_congr {env env2 : UploadEnv}
    (hup : env.uploadResult = env2.uploadResult) (fs : PyDict String String)
    (file_paths : List String) :
    upload_files_batch env fs file_paths = upload_files_batch env2 fs file_paths := by
  unfold upload_files_batch
  rw [List.map_congr_left (fun p _ => upload_file_async_congr hup fs p)]

theorem batch_failed_shape (env : UploadEnv) (fs : PyDict String String)
    (file_paths : List String) :
    ∀ s ∈ (upload_files_batch env fs file_paths).2.failed_uploads,
      ∃ q ∈ file_paths, s = q ++ " (Upload failed)" := by
  intro s hs
  unfold upload_files_batch at hs
  simp only at hs
  refine batch_foldl_failed_shape _ ([], [])
    (fun t => ∃ q ∈ file_paths, t = q ++ " (Upload failed)") (by simp) ?_ s hs
  intro r hr
  obtain ⟨p, hp, hpr⟩ := List.mem_map.mp hr
  subst hpr
  rw [upload_file_async_path]
  exact ⟨p, hp, rfl⟩

theorem upload_files_batch_events_eq (env : UploadEnv) (fs : PyDict String String)
    (file_paths : List String) :
    (upload_files_batch env fs file_paths).1 =
      ((file_paths.map (upload_file_async env fs)).map (fun r => r.1)).flatten ++
        (if (((file_paths.map (upload_file_async env fs)).foldl batch_step ([], [])).1 :
          PyDict String String) = [] then [] else [Event.refreshCall]) := rfl

theorem upload_files_batch_successful_eq (env : UploadEnv) (fs : PyDict String String)
    (file_paths : List String) :
    (upload_files_batch env fs file_paths).2.successful_uploads =
      ((file_paths.map (upload_file_async env fs)).foldl batch_step ([], [])).1 := rfl

theorem refreshCall_not_mem_upload_events (env : UploadEnv) (fs : PyDict String String)
    (file_paths : List String) :
    Event.refreshCall ∉ ((file_paths.map (upload_file_async env fs)).map
      (fun r => r.1)).flatten := by
  intro h
  obtain ⟨l, hl, hel⟩ := List.mem_flatten.mp h
  obtain ⟨r, hr, hrl⟩ := List.mem_map.mp hl
  obtain ⟨q, hq, hqr⟩ := List.mem_map.mp hr
  subst hqr
  rw [← hrl] at hel
  exact absurd (upload_file_async_events env fs q hel) (by simp)

theorem detachCall_mem_delete_file_async (env : UploadEnv) (fid : String) :
    Event.detachCall fid ∈ delete_file_async env fid := by
  unfold delete_file_async delete_sync
  by_cases h1 : env.detachOk fid
  · by_cases h2 : env.deleteBytesOk fid
    · simp [h1, h2]
    · simp [h1, h2]
  · simp [h1]

end UploaderLemmas

section DiffLemmas

theorem mem_new_keys_iff {K V : Type} [DecidableEq K] [DecidableEq V]
    (d1 d2 : PyDict K V) (k : K) :
    k ∈ (get_dict_differences d1 d2).new_keys ↔
      (k ∈ pyKeys d2 ∧ k ∉ pyKeys d1) := by
  simp [get_dict_differences, List.mem_filter]

theorem mem_updated_keys_iff {K V : Type} [DecidableEq K] [DecidableEq V]
    (d1 d2 : PyDict K V) (k : K) :
    k ∈ (get_dict_differences d1 d2).updated_keys ↔
      (k ∈ pyKeys d1 ∧ k ∈ pyKeys d2 ∧ pyGet? d1 k ≠ pyGet? d2 k) := by
  simp [get_dict_differences, List.mem_filter]
  try tauto

end DiffLemmas

section SyncLemmas

theorem create_new_articles_nil (env : UploadEnv) (cur : List Article)
    (fs idx : PyDict String String) :
    create_new_articles env cur fs idx [] = ([], idx) := rfl

theorem update_new_articles_nil (env : UploadEnv) (cur : List Article)
    (fs idx : PyDict String String) :
    update_new_articles env cur fs idx [] = ([], idx) := rfl

theorem sync_error_eq (slugify : String → String) (output : String)
    (env : UploadEnv) (sha : String → String) (st : OrchState)
    (articles : List Article) (e : String)
    (hgen : generate_file_hashes sha
      (save_articles slugify output st.fs articles).2 = Except.error e) :
    sync slugify output env sha st articles =
      ([], { st with fs := (save_articles slugify output st.fs articles).1 },
        some e) := by
  unfold sync
  rw [hgen]

theorem sync_ok_eq (slugify : String → String) (output : String)
    (env : UploadEnv) (sha : String → String) (st : OrchState)
    (articles : List Article) (d : PyDict Int String)
    (hgen : generate_file_hashes sha
      (save_articles slugify output st.fs articles).2 = Except.ok d) :
    sync slugify output env sha st articles =
      ((create_new_articles env (save_articles slugify output st.fs articles).2
          (save_articles slugify output st.fs articles).1 st.artifact_index
          (get_dict_differences (remote_lock_get st.lock) d).new_keys).1 ++
        (update_new_articles env (save_articles slugify output st.fs articles).2
          (save_articles slugify output st.fs articles).1
          (create_new_articles env (save_articles slugify output st.fs articles).2
            (save_articles slugify output st.fs articles).1 st.artifact_index
            (get_dict_differences (remote_lock_get st.lock) d).new_keys).2
          (get_dict_differences (remote_lock_get st.lock) d).updated_keys).1,
       { fs := (save_articles slugify output st.fs articles).1,
         artifact_index := (update_new_articles env
           (save_articles slugify output st.fs articles).2
           (save_articles slugify output st.fs articles).1
           (create_new_articles env (save_articles slugify output st.fs articles).2
             (save_articles slugify output st.fs articles).1 st.artifact_index
             (get_dict_differences (remote_lock_get st.lock) d).new_keys).2
           (get_dict_differences (remote_lock_get st.lock) d).updated_keys).2,
         lock := some d }, none) := by
  unfold sync
  rw [hgen]

theorem create_new_articles_expand (env : UploadEnv) (cur : List Article)
    (fs idx : PyDict String String) (ids : List Int) (hids : ids ≠ []) :
    create_new_articles env cur fs idx ids =
      ((upload_files_batch env fs (cur.filterMap (fun a =>
          if a.id ∈ ids then a.file_path else none))).1,
       save_article_openai_file_ids cur
        (upload_files_batch env fs (cur.filterMap (fun a =>
          if a.id ∈ ids then a.file_path else none))).2.successful_uploads idx) := by
  unfold create_new_articles
  rw [if_neg hids]

theorem update_new_articles_expand (env : UploadEnv) (cur : List Article)
    (fs idx : PyDict String String) (ids : List Int) (hids : ids ≠ []) :
    update_new_articles env cur fs idx ids =
      ((update_files_batch env fs
          ((cur.foldl (upd_pairs_step idx ids) []).map (fun q => q.1))
          ((cur.foldl (upd_pairs_step idx ids) []).map (fun q => q.2))).1,
       save_article_openai_file_ids cur
        (update_files_batch env fs
          ((cur.foldl (upd_pairs_step idx ids) []).map (fun q => q.1))
          ((cur.foldl (upd_pairs_step idx ids) []).map (fun q => q.2))).2.successful_uploads
        idx) := by
  unfold update_new_articles
  rw [if_neg hids]

theorem create_new_articles_sound (env : UploadEnv) (cur : List Article)
    (fs idx : PyDict String String) (ids : List Int)
    (hnd : (pyKeys idx).Nodup) (k : String)
    (hch : pyGet? (create_new_articles env cur fs idx ids).2 k ≠ pyGet? idx k) :
    ∃ q fid, env.uploadResult q = some fid ∧
      pyGet? (create_new_articles env cur fs idx ids).2 k = some fid := by
  by_cases hids : ids = []
  · rw [hids, create_new_articles_nil] at hch
    exact absurd rfl hch
  · rw [create_new_articles_expand env cur fs idx ids hids] at hch ⊢
    simp only at hch ⊢
    rcases save_ids_sound cur _ idx k hnd hch with ⟨q, fid, hsq, hlook⟩
    have hqmem := mem_of_pyGet?_eq_some hsq
    have hs := batch_successful_sound env fs _ (q, fid) hqmem
    exact ⟨q, fid, hs.1, hlook⟩

theorem create_new_articles_nodup (env : UploadEnv) (cur : List Article)
    (fs idx : PyDict String String) (ids : List Int)
    (hnd : (pyKeys idx).Nodup) :
    (pyKeys (create_new_articles env cur fs idx ids).2).Nodup := by
  by_cases hids : ids = []
  · rw [hids, create_new_articles_nil]
    exact hnd
  · rw [create_new_articles_expand env cur fs idx ids hids]
    exact save_ids_nodup _ _ _ hnd

theorem update_new_articles_sound (env : UploadEnv) (cur : List Article)
    (fs idx : PyDict String String) (ids : List Int)
    (hnd : (pyKeys idx).Nodup) (k : String)
    (hch : pyGet? (update_new_articles env cur fs idx ids).2 k ≠ pyGet? idx k) :
    ∃ q fid, env.uploadResult q = some fid ∧
      pyGet? (update_new_articles env cur fs idx ids).2 k = some fid := by
  by_cases hids : ids = []
  · rw [hids, update_new_articles_nil] at hch
    exact absurd rfl hch
  · rw [update_new_articles_expand env cur fs idx ids hids] at hch ⊢
    simp only at hch ⊢
    rcases save_ids_sound cur _ idx k hnd hch with ⟨q, fid, hsq, hlook⟩
    have hqmem := mem_of_pyGet?_eq_some hsq
    have hs := batch_successful_sound env fs _ (q, fid) hqmem
    exact ⟨q, fid, hs.1, hlook⟩

end SyncLemmas

section UpdatePairLemmas

theorem upd_step_not_sel (idx : PyDict String String) (ids : List Int)
    (acc : List (String × String)) {a : Article} (h : a.id ∉ ids) :
    upd_pairs_step idx ids acc a = acc := by
  unfold upd_pairs_step
  rw [if_neg h]

theorem upd_step_no_path (idx : PyDict String String) (ids : List Int)
    (acc : List (String × String)) {a : Article} (hin : a.id ∈ ids)
    (hfp : a.file_path = none) :
    upd_pairs_step idx ids acc a = acc := by
  unfold upd_pairs_step
  rw [if_pos hin, hfp]

theorem upd_step_no_id (idx : PyDict String String) (ids : List Int)
    (acc : List (String × String)) {a : Article} {p : String} (hin : a.id ∈ ids)
    (hfp : a.file_path = some p) (hid : pyGet? idx (toString a.id) = none) :
    upd_pairs_step idx ids acc a = acc := by
  unfold upd_pairs_step
  rw [if_pos hin, hfp]
  show (match pyGet? idx (toString a.id) with
    | none => acc
    | some oid => acc ++ [(p, oid)]) = acc
  rw [hid]

theorem upd_step_pair (idx : PyDict String String) (ids : List Int)
    (acc : List (String × String)) {a : Article} {p oid : String}
    (hin : a.id ∈ ids) (hfp : a.file_path = some p)
    (hid : pyGet? idx (toString a.id) = some oid) :
    upd_pairs_step idx ids acc a = acc ++ [(p, oid)] := by
  unfold upd_pairs_step
  rw [if_pos hin, hfp]
  show (match pyGet? idx (toString a.id) with
    | none => acc
    | some oid => acc ++ [(p, oid)]) = acc ++ [(p, oid)]
  rw [hid]

theorem upd_pairs_mem (idx : PyDict String String) (ids : List Int) :
    ∀ (cur : List Article) (acc : List (String × String)) {r : String × String},
      r ∈ cur.foldl (upd_pairs_step idx ids) acc →
      r ∈ acc ∨ ∃ b ∈ cur, b.id ∈ ids ∧ b.file_path = some r.1 ∧
        pyGet? idx (toString b.id) = some r.2 := by
  intro cur
  induction cur with
  | nil =>
    intro acc r hr
    exact Or.inl hr
  | cons a t ih =>
    intro acc r hr
    rcases ih (upd_pairs_step idx ids acc a) hr with h | h
    · by_cases hin : a.id ∈ ids
      · rcases hfp : a.file_path with _ | p
        · rw [upd_step_no_path idx ids acc hin hfp] at h
          exact Or.inl h
        · rcases hid : pyGet? idx (toString a.id) with _ | oid
          · rw [upd_step_no_id idx ids acc hin hfp hid] at h
            exact Or.inl h
          · rw [upd_step_pair idx ids acc hin hfp hid] at h
            rcases List.mem_append.mp h with h2 | h2
            · exact Or.inl h2
            · rw [List.mem_singleton.mp h2]
              exact Or.inr ⟨a, List.mem_cons_self _ _, hin, hfp, hid⟩
      · rw [upd_step_not_sel idx ids acc hin] at h
        exact Or.inl h
    · rcases h with ⟨b, hb, rest⟩
      exact Or.inr ⟨b, List.mem_cons_of_mem _ hb, rest⟩

theorem aoim_go_entries_from (succ : PyDict String String) :
    ∀ (cur : List Article) (acc : PyDict PyKey String) {p : PyKey × String},
      p ∈ cur.foldl (aoim_step succ) acc →
      p ∈ acc ∨ ∃ b ∈ cur, p.1 = PyKey.pint b.id ∧ ∃ q, b.file_path = some q ∧
        pyGet? succ q = some p.2 := by
  intro cur
  induction cur with
  | nil =>
    intro acc p hp
    exact Or.inl hp
  | cons a t ih =>
    intro acc p hp
    rcases ih (aoim_step succ acc a) hp with h | h
    · rcases hfp : a.file_path with _ | q
      · rw [aoim_step_eq_of_none succ acc hfp] at h
        exact Or.inl h
      · rcases hsu : pyGet? succ q with _ | fid
        · rw [aoim_step_eq_of_nosucc succ acc hfp hsu] at h
          exact Or.inl h
        · rw [aoim_step_eq_of_succ succ acc hfp hsu] at h
          rcases mem_pySet h with h2 | h2
          · exact Or.inl h2
          · refine Or.inr ⟨a, List.mem_cons_self _ _, ?_, q, hfp, ?_⟩
            · rw [h2]
            · rw [h2]
              exact hsu
    · rcases h with ⟨b, hb, rest⟩
      exact Or.inr ⟨b, List.mem_cons_of_mem _ hb, rest⟩

theorem filterMap_selected_mem {cur : List Article} {ids : List Int} {p : String}
    (hp : p ∈ cur.filterMap (fun a => if a.id ∈ ids then a.file_path else none)) :
    ∃ b ∈ cur, b.id ∈ ids ∧ b.file_path = some p := by
  rcases List.mem_filterMap.mp hp with ⟨b, hb, hbp⟩
  by_cases hin : b.id ∈ ids
  · rw [if_pos hin] at hbp
    exact ⟨b, hb, hin, hbp⟩
  · rw [if_neg hin] at hbp
    cases hbp

theorem delete_file_async_events (env : UploadEnv) (fid : String) {e : Event}
    (he : e ∈ delete_file_async env fid) :
    e = Event.detachCall fid ∨ e = Event.deleteBytesCall fid := by
  unfold delete_file_async delete_sync at he
  by_cases h1 : env.detachOk fid
  · by_cases h2 : env.deleteBytesOk fid
    · rw [if_pos h1, if_pos h2] at he
      simpa using he
    · rw [if_pos h1, if_neg h2] at he
      simpa using he
  · rw [if_neg h1] at he
    exact Or.inl (by simpa using he)

theorem uploadCall_not_mem_batch (env : UploadEnv) (fs : PyDict String String)
    (paths : List String) (p : String) (hp : ∀ q ∈ paths, q ≠ p) :
    Event.uploadCall p ∉ (upload_files_batch env fs paths).1 := by
  intro hmem
  rcases batch_events_shape env fs paths hmem with ⟨q, hq, h2⟩ | h2
  · injection h2 with h3
    exact hp q hq h3.symm
  · cases h2

theorem uploadCall_not_mem_update_batch (env : UploadEnv)
    (fs : PyDict String String) (paths oids : List String) (p : String)
    (hp : ∀ q ∈ paths, q ≠ p) :
    Event.uploadCall p ∉ (update_files_batch env fs paths oids).1 := by
  intro hmem
  rcases List.mem_append.mp hmem with h | h
  · obtain ⟨l, hl, hel⟩ := List.mem_flatten.mp h
    obtain ⟨fid, hfid, hfl⟩ := List.mem_map.mp hl
    rw [← hfl] at hel
    rcases delete_file_async_events env fid hel with h2 | h2
    · cases h2
    · cases h2
  · exact uploadCall_not_mem_batch env fs paths p hp h

theorem skipped_core (env : UploadEnv) (cur : List Article)
    (fs idx : PyDict String String) (NEW UPD : List Int) (p k : String)
    (hidxnd : (pyKeys idx).Nodup)
    (hmiss : pyGet? idx k = none)
    (hA : ∀ b ∈ cur, b.file_path = some p → b.id ∉ NEW)
    (hB : ∀ b ∈ cur, toString b.id = k → b.file_path = some p)
    (hC : ∀ b ∈ cur, b.file_path = some p → toString b.id = k) :
    Event.uploadCall p ∉ (create_new_articles env cur fs idx NEW).1 ∧
    Event.uploadCall p ∉ (update_new_articles env cur fs
      (create_new_articles env cur fs idx NEW).2 UPD).1 ∧
    pyGet? (update_new_articles env cur fs
      (create_new_articles env cur fs idx NEW).2 UPD).2 k = none := by
  have hselected : ∀ q ∈ cur.filterMap (fun b =>
      if b.id ∈ NEW then b.file_path else none), q ≠ p := by
    intro q hq hqp
    rcases filterMap_selected_mem hq with ⟨b, hb, hbNEW, hbfp⟩
    exact hA b hb (hqp ▸ hbfp) hbNEW
  have hc1 : Event.uploadCall p ∉ (create_new_articles env cur fs idx NEW).1 := by
    by_cases hNEW : NEW = []
    · rw [hNEW, create_new_articles_nil]
      simp
    · rw [create_new_articles_expand env cur fs idx NEW hNEW]
      exact uploadCall_not_mem_batch env fs _ p hselected
  have hidx1 : pyGet? (create_new_articles env cur fs idx NEW).2 k = none := by
    by_cases hNEW : NEW = []
    · rw [hNEW, create_new_articles_nil]
      exact hmiss
    · rw [create_new_articles_expand env cur fs idx NEW hNEW]
      simp only
      have hknot : k ∉ (article_openai_id_map cur
          (upload_files_batch env fs (cur.filterMap (fun b =>
            if b.id ∈ NEW then b.file_path else none))).2.successful_uploads).map
          (fun pp => pp.1.toStr) := by
        intro hmem
        rcases List.mem_map.mp hmem with ⟨pp, hpp, htos⟩
        rcases aoim_go_entries_from _ cur [] hpp with h | h
        · cases h
        · rcases h with ⟨b, hb, hkey, q, hbfp, hsu⟩
          have hbk : toString b.id = k := by
            rw [← htos, hkey]
            rfl
          have hbp : b.file_path = some p := hB b hb hbk
          rw [hbp] at hbfp
          injection hbfp with hq2
          have hqsel := (batch_successful_sound env fs _ (q, pp.2)
            (mem_of_pyGet?_eq_some hsu)).2
          exact hselected q hqsel hq2.symm
      rw [save_ids_frame cur _ idx k hidxnd hknot]
      exact hmiss
  have hpairs : ∀ r ∈ cur.foldl (upd_pairs_step
      (create_new_articles env cur fs idx NEW).2 UPD) [], r.1 ≠ p := by
    intro r hr hrp
    rcases upd_pairs_mem _ UPD cur [] hr with h | h
    · cases h
    · rcases h with ⟨b, hb, _, hbfp, hboid⟩
      have hbk : toString b.id = k := hC b hb (hrp ▸ hbfp)
      rw [hbk, hidx1] at hboid
      cases hboid
  have hpaths : ∀ q ∈ (cur.foldl (upd_pairs_step
      (create_new_articles env cur fs idx NEW).2 UPD) []).map (fun r => r.1),
      q ≠ p := by
    intro q hq
    rcases List.mem_map.mp hq with ⟨r, hr, hrq⟩
    rw [← hrq]
    exact hpairs r hr
  have hc2 : Event.uploadCall p ∉ (update_new_articles env cur fs
      (create_new_articles env cur fs idx NEW).2 UPD).1 := by
    by_cases hUPD : UPD = []
    · rw [hUPD, update_new_articles_nil]
      simp
    · rw [update_new_articles_expand env cur fs _ UPD hUPD]
      exact uploadCall_not_mem_update_batch env fs _ _ p hpaths
  have hidx1nd : (pyKeys (create_new_articles env cur fs idx NEW).2).Nodup :=
    create_new_articles_nodup env cur fs idx NEW hidxnd
  have hc3 : pyGet? (update_new_articles env cur fs
      (create_new_articles env cur fs idx NEW).2 UPD).2 k = none := by
    by_cases hUPD : UPD = []
    · rw [hUPD, update_new_articles_nil]
      exact hidx1
    · rw [update_new_articles_expand env cur fs _ UPD hUPD]
      simp only
      have hknot2 : k ∉ (article_openai_id_map cur
          (update_files_batch env fs ((cur.foldl (upd_pairs_step
              (create_new_articles env cur fs idx NEW).2 UPD) []).map (fun q => q.1))
            ((cur.foldl (upd_pairs_step (create_new_articles env cur fs idx NEW).2
              UPD) []).map (fun q => q.2))).2.successful_uploads).map
          (fun pp => pp.1.toStr) := by
        intro hmem
        rcases List.mem_map.mp hmem with ⟨pp, hpp, htos⟩
        rcases aoim_go_entries_from _ cur [] hpp with h | h
        · cases h
        · rcases h with ⟨b, hb, hkey, q, hbfp, hsu⟩
          have hbk : toString b.id = k := by
            rw [← htos, hkey]
            rfl
          have hbp : b.file_path = some p := hB b hb hbk
          rw [hbp] at hbfp
          injection hbfp with hq2
          have hqsel := (batch_successful_sound env fs _ (q, pp.2)
            (mem_of_pyGet?_eq_some hsu)).2
          exact hpaths q hqsel hq2.symm
      rw [save_ids_frame cur _ _ k hidx1nd hknot2]
      exact hidx1
  exact ⟨hc1, hc2, hc3⟩

end UpdatePairLemmas

/-- C5: hashing fails iff some harvested article has an empty body, and when
it fails the tick aborts before any mutation: no remote call is dispatched
(the event trace is empty), no artifact-index entry is written, and the lock
is not written. -/
theorem empty_body_aborts_tick (slugify : String → String) (output : String)
    (env : UploadEnv) (sha : String → String) (st : OrchState)
    (articles : List Article) :
    ((∃ e, generate_file_hashes sha
        (save_articles slugify output st.fs articles).2 = Except.error e) ↔
      ∃ a ∈ articles, a.body = "") ∧
    ((∃ a ∈ articles, a.body = "") →
      (sync slugify output env sha st articles).1 = [] ∧
      (sync slugify output env sha st articles).2.1.artifact_index =
        st.artifact_index ∧
      (sync slugify output env sha st articles).2.1.lock = st.lock ∧
      (sync slugify output env sha st articles).2.2 ≠ none) := by
  have hiff : (∃ e, generate_file_hashes sha
      (save_articles slugify output st.fs articles).2 = Except.error e) ↔
      ∃ a ∈ articles, a.body = "" := by
    rw [gfh_staged_eq]
    exact gfh_error_iff sha articles
  refine ⟨hiff, ?_⟩
  intro hx
  rcases hiff.mpr hx with ⟨e, he⟩
  rw [sync_error_eq slugify output env sha st articles e he]
  exact ⟨rfl, rfl, rfl, by simp⟩

/-- C5 witness: the abort theorem applied to a harvest with one article whose
body is empty. -/
theorem empty_body_aborts_tick_witness :
    (∃ a ∈ [(⟨1, "n", "", none⟩ : Article)], a.body = "") ∧
    ((sync (fun s => s) "o" ⟨fun _ => some "A", fun _ => true, fun _ => true⟩
        (fun s => s) ⟨[], [], none⟩ [⟨1, "n", "", none⟩]).1 = [] ∧
      (sync (fun s => s) "o" ⟨fun _ => some "A", fun _ => true, fun _ => true⟩
        (fun s => s) ⟨[], [], none⟩ [⟨1, "n", "", none⟩]).2.1.artifact_index =
        ([] : PyDict String String) ∧
      (sync (fun s => s) "o" ⟨fun _ => some "A", fun _ => true, fun _ => true⟩
        (fun s => s) ⟨[], [], none⟩ [⟨1, "n", "", none⟩]).2.1.lock = none ∧
      (sync (fun s => s) "o" ⟨fun _ => some "A", fun _ => true, fun _ => true⟩
        (fun s => s) ⟨[], [], none⟩ [⟨1, "n", "", none⟩]).2.2 ≠ none) :=
  ⟨by decide, (empty_body_aborts_tick (fun s => s) "o"
      ⟨fun _ => some "A", fun _ => true, fun _ => true⟩ (fun s => s)
      ⟨[], [], none⟩ [⟨1, "n", "", none⟩]).2 (by decide)⟩

theorem stage_fs_cons (slugify : String → String) (output : String)
    (fs : PyDict String String) (a : Article) (l : List Article) :
    stage_fs slugify output fs (a :: l) =
      stage_fs slugify output (pySet fs (staged_path slugify output a) a.body) l :=
  rfl

theorem lastValFor_eq_pyGet?_pint (j : Int) :
    ∀ (m : PyDict PyKey String), (pyKeys m).Nodup →
      (∀ pp ∈ m, pp.1.toStr = toString j → pp.1 = PyKey.pint j) →
      lastValFor m (toString j) = pyGet? m (PyKey.pint j) := by
  intro m
  induction m with
  | nil =>
    intro _ _
    rfl
  | cons pp t ih =>
    intro hnd hkey
    have hnd2 : (pyKeys t).Nodup := by
      simp only [pyKeys, List.map_cons, List.nodup_cons] at hnd
      exact hnd.2
    have hkey2 : ∀ q ∈ t, q.1.toStr = toString j → q.1 = PyKey.pint j :=
      fun q hq => hkey q (List.mem_cons_of_mem _ hq)
    simp only [lastValFor]
    rw [pyGet?_cons, ih hnd2 hkey2]
    by_cases hp : pp.1 = PyKey.pint j
    · rw [if_pos hp]
      have hnotin : PyKey.pint j ∉ pyKeys t := by
        simp only [pyKeys, List.map_cons, List.nodup_cons] at hnd
        rw [← hp]
        exact hnd.1
      have hnone : pyGet? t (PyKey.pint j) = none :=
        (pyGet?_eq_none_iff t _).mpr hnotin
      rw [hnone]
      exact if_pos (by rw [hp]; rfl)
    · rw [if_neg hp]
      rcases ht : pyGet? t (PyKey.pint j) with _ | v
      · exact if_neg (fun hc => hp (hkey pp (List.mem_cons_self _ _) hc))
      · rfl

theorem save_ids_lookup_pint (cur : List Article) (succ idx : PyDict String String)
    (j : Int) {a : Article} {q fid : String}
    (hndcur : (cur.map (fun b => b.id)).Nodup)
    (ha : a ∈ cur) (haid : a.id = j) (hfp : a.file_path = some q)
    (hsu : pyGet? succ q = some fid)
    (hkeyj : ∀ pp ∈ article_openai_id_map cur succ,
      pp.1.toStr = toString j → pp.1 = PyKey.pint j) :
    pyGet? (save_article_openai_file_ids cur succ idx) (toString j) = some fid := by
  have hsuccne : succ ≠ ([] : PyDict String String) := by
    intro h
    rw [h] at hsu
    cases hsu
  unfold save_article_openai_file_ids
  rw [if_neg hsuccne]
  simp only
  rw [merged_eq_append, hsetMapping_lookup, lastValFor_append]
  have hmnd : (pyKeys (article_openai_id_map cur succ)).Nodup :=
    aoim_nodup succ cur [] List.nodup_nil
  rw [lastValFor_eq_pyGet?_pint j _ hmnd hkeyj]
  have hg : pyGet? (article_openai_id_map cur succ) (PyKey.pint j) = some fid := by
    rw [← haid]
    exact aoim_lookup succ cur hndcur ha hfp hsu
  rw [hg]

/-- C10: two distinct articles harvested in the same tick whose names slugify
to the same slug are staged to the same path; the staged file finally holds
the body of the article staged later; and after a successful upload of that
path, the index write maps both article ids to the same artifact id. -/
theorem slug_collision_last_wins (slugify : String → String) (output : String)
    (fs succ idx : PyDict String String) (l1 l2 l3 : List Article)
    (a1 a2 : Article) (fid : String)
    (hslug : slugify a1.name = slugify a2.name)
    (hlast : ∀ b ∈ l3,
      staged_path slugify output b ≠ staged_path slugify output a2)
    (hnd : ((l1 ++ a1 :: l2 ++ a2 :: l3).map (fun b => b.id)).Nodup)
    (hsucc : pyGet? succ (staged_path slugify output a2) = some fid)
    (hstr1 : ∀ b ∈ l1 ++ a1 :: l2 ++ a2 :: l3,
      toString b.id = toString a1.id → b.id = a1.id)
    (hstr2 : ∀ b ∈ l1 ++ a1 :: l2 ++ a2 :: l3,
      toString b.id = toString a2.id → b.id = a2.id) :
    staged_path slugify output a1 = staged_path slugify output a2 ∧
    { a1 with file_path := some (staged_path slugify output a2) } ∈
      (save_articles slugify output fs (l1 ++ a1 :: l2 ++ a2 :: l3)).2 ∧
    { a2 with file_path := some (staged_path slugify output a2) } ∈
      (save_articles slugify output fs (l1 ++ a1 :: l2 ++ a2 :: l3)).2 ∧
    pyGet? (save_articles slugify output fs (l1 ++ a1 :: l2 ++ a2 :: l3)).1
      (staged_path slugify output a2) = some a2.body ∧
    pyGet? (save_article_openai_file_ids
        (save_articles slugify output fs (l1 ++ a1 :: l2 ++ a2 :: l3)).2 succ idx)
      (toString a1.id) = some fid ∧
    pyGet? (save_article_openai_file_ids
        (save_articles slugify output fs (l1 ++ a1 :: l2 ++ a2 :: l3)).2 succ idx)
      (toString a2.id) = some fid := by
  have hsp1 : staged_path slugify output a1 = staged_path slugify output a2 := by
    unfold staged_path
    rw [hslug]
  have ha1mem : a1 ∈ l1 ++ a1 :: l2 ++ a2 :: l3 :=
    List.mem_append.mpr (Or.inl (List.mem_append.mpr
      (Or.inr (List.mem_cons_self _ _))))
  have ha2mem : a2 ∈ l1 ++ a1 :: l2 ++ a2 :: l3 :=
    List.mem_append.mpr (Or.inr (List.mem_cons_self _ _))
  have hmem1 : { a1 with file_path := some (staged_path slugify output a2) } ∈
      (save_articles slugify output fs (l1 ++ a1 :: l2 ++ a2 :: l3)).2 := by
    rw [save_articles_snd, ← hsp1]
    exact List.mem_map_of_mem _ ha1mem
  have hmem2 : { a2 with file_path := some (staged_path slugify output a2) } ∈
      (save_articles slugify output fs (l1 ++ a1 :: l2 ++ a2 :: l3)).2 := by
    rw [save_articles_snd]
    exact List.mem_map_of_mem _ ha2mem
  have hndCUR : (((save_articles slugify output fs
      (l1 ++ a1 :: l2 ++ a2 :: l3)).2).map (fun b => b.id)).Nodup := by
    rw [save_articles_snd, List.map_map]
    exact hnd
  have hfs : pyGet? (save_articles slugify output fs (l1 ++ a1 :: l2 ++ a2 :: l3)).1
      (staged_path slugify output a2) = some a2.body := by
    rw [save_articles_fst, stage_fs_append, stage_fs_cons, stage_fs_append,
      stage_fs_cons, stage_fs_preserves slugify output _ l3 _ hlast]
    exact pyGet?_pySet_self _ _ _
  have hkey1 : ∀ pp ∈ article_openai_id_map
      (save_articles slugify output fs (l1 ++ a1 :: l2 ++ a2 :: l3)).2 succ,
      pp.1.toStr = toString a1.id → pp.1 = PyKey.pint a1.id := by
    intro pp hpp htos
    rcases aoim_go_entries_from succ _ [] hpp with h | h
    · cases h
    · rcases h with ⟨b, hb, hkey, _, _, _⟩
      rw [save_articles_snd] at hb
      rcases List.mem_map.mp hb with ⟨b0, hb0, hb0eq⟩
      have hbid : b.id = b0.id := by
        rw [← hb0eq]
      have htos2 : toString b.id = toString a1.id := by
        rw [← htos, hkey]
        rfl
      have hb0a : b0.id = a1.id := hstr1 b0 hb0 (by rw [← hbid]; exact htos2)
      rw [hkey, hbid, hb0a]
  have hkey2 : ∀ pp ∈ article_openai_id_map
      (save_articles slugify output fs (l1 ++ a1 :: l2 ++ a2 :: l3)).2 succ,
      pp.1.toStr = toString a2.id → pp.1 = PyKey.pint a2.id := by
    intro pp hpp htos
    rcases aoim_go_entries_from succ _ [] hpp with h | h
    · cases h
    · rcases h with ⟨b, hb, hkey, _, _, _⟩
      rw [save_articles_snd] at hb
      rcases List.mem_map.mp hb with ⟨b0, hb0, hb0eq⟩
      have hbid : b.id = b0.id := by
        rw [← hb0eq]
      have htos2 : toString b.id = toString a2.id := by
        rw [← htos, hkey]
        rfl
      have hb0a : b0.id = a2.id := hstr2 b0 hb0 (by rw [← hbid]; exact htos2)
      rw [hkey, hbid, hb0a]
  refine ⟨hsp1, hmem1, hmem2, hfs, ?_, ?_⟩
  · exact save_ids_lookup_pint _ succ idx a1.id hndCUR hmem1 rfl rfl hsucc hkey1
  · exact save_ids_lookup_pint _ succ idx a2.id hndCUR hmem2 rfl rfl hsucc hkey2

/-- C10 witness: the collision theorem for two articles with ids 1 and 2 whose
names both slugify to the constant slug. -/
theorem slug_collision_last_wins_witness :
    (((fun _ => "s") : String → String) ((⟨1, "x", "bodyone", none⟩ : Article)).name =
        ((fun _ => "s") : String → String) ((⟨2, "y", "bodytwo", none⟩ : Article)).name ∧
      (∀ b ∈ ([] : List Article), staged_path (fun _ => "s") "o" b ≠
        staged_path (fun _ => "s") "o" (⟨2, "y", "bodytwo", none⟩ : Article)) ∧
      ((([] : List Article) ++ (⟨1, "x", "bodyone", none⟩ : Article) ::
        ([] : List Article) ++ (⟨2, "y", "bodytwo", none⟩ : Article) ::
        ([] : List Article)).map (fun b => b.id)).Nodup ∧
      pyGet? [("o/s.md", "F")]
        (staged_path (fun _ => "s") "o" (⟨2, "y", "bodytwo", none⟩ : Article)) =
        some "F" ∧
      (∀ b ∈ ([] : List Article) ++ (⟨1, "x", "bodyone", none⟩ : Article) ::
          ([] : List Article) ++ (⟨2, "y", "bodytwo", none⟩ : Article) ::
          ([] : List Article),
        toString b.id = toString ((⟨1, "x", "bodyone", none⟩ : Article)).id →
        b.id = ((⟨1, "x", "bodyone", none⟩ : Article)).id) ∧
      (∀ b ∈ ([] : List Article) ++ (⟨1, "x", "bodyone", none⟩ : Article) ::
          ([] : List Article) ++ (⟨2, "y", "bodytwo", none⟩ : Article) ::
          ([] : List Article),
        toString b.id = toString ((⟨2, "y", "bodytwo", none⟩ : Article)).id →
        b.id = ((⟨2, "y", "bodytwo", none⟩ : Article)).id)) ∧
    (staged_path (fun _ => "s") "o" (⟨1, "x", "bodyone", none⟩ : Article) =
      staged_path (fun _ => "s") "o" (⟨2, "y", "bodytwo", none⟩ : Article) ∧
    (⟨1, "x", "bodyone",
        some (staged_path (fun _ => "s") "o" (⟨2, "y", "bodytwo", none⟩ : Article))⟩ :
        Article) ∈
      (save_articles (fun _ => "s") "o" []
        (([] : List Article) ++ (⟨1, "x", "bodyone", none⟩ : Article) ::
          ([] : List Article) ++ (⟨2, "y", "bodytwo", none⟩ : Article) ::
          ([] : List Article))).2 ∧
    (⟨2, "y", "bodytwo",
        some (staged_path (fun _ => "s") "o" (⟨2, "y", "bodytwo", none⟩ : Article))⟩ :
        Article) ∈
      (save_articles (fun _ => "s") "o" []
        (([] : List Article) ++ (⟨1, "x", "bodyone", none⟩ : Article) ::
          ([] : List Article) ++ (⟨2, "y", "bodytwo", none⟩ : Article) ::
          ([] : List Article))).2 ∧
    pyGet? (save_articles (fun _ => "s") "o" []
        (([] : List Article) ++ (⟨1, "x", "bodyone", none⟩ : Article) ::
          ([] : List Article) ++ (⟨2, "y", "bodytwo", none⟩ : Article) ::
          ([] : List Article))).1
      (staged_path (fun _ => "s") "o" (⟨2, "y", "bodytwo", none⟩ : Article)) =
      some ((⟨2, "y", "bodytwo", none⟩ : Article)).body ∧
    pyGet? (save_article_openai_file_ids
        (save_articles (fun _ => "s") "o" []
          (([] : List Article) ++ (⟨1, "x", "bodyone", none⟩ : Article) ::
            ([] : List Article) ++ (⟨2, "y", "bodytwo", none⟩ : Article) ::
            ([] : List Article))).2 [("o/s.md", "F")] [])
      (toString ((⟨1, "x", "bodyone", none⟩ : Article)).id) = some "F" ∧
    pyGet? (save_article_openai_file_ids
        (save_articles (fun _ => "s") "o" []
          (([] : List Article) ++ (⟨1, "x", "bodyone", none⟩ : Article) ::
            ([] : List Article) ++ (⟨2, "y", "bodytwo", none⟩ : Article) ::
            ([] : List Article))).2 [("o/s.md", "F")] [])
      (toString ((⟨2, "y", "bodytwo", none⟩ : Article)).id) = some "F") :=
  ⟨⟨rfl, by decide, by decide, by decide, by decide, by decide⟩,
    slug_collision_last_wins (fun _ => "s") "o" [] [("o/s.md", "F")] []
      [] [] [] ⟨1, "x", "bodyone", none⟩ ⟨2, "y", "bodytwo", none⟩ "F"
      rfl (by decide) (by decide) (by decide) (by decide) (by decide)⟩

/-- C2 counterexample: a tick with one updated article (id 5) whose
artifactId is absent from the index.  The tick does not fail, but no create
is issued for the article (the trace is empty), its id is not added to the
index, and its hash is still committed. -/
theorem missing_artifact_id_counterexample :
    ((sync (fun s => s) "o" ⟨fun _ => some "A", fun _ => true, fun _ => true⟩
        (fun s => s) ⟨[], [], some [(5, "old")]⟩ [⟨5, "b", "new", none⟩]).2.2 =
      none) ∧
    ((5 : Int) ∈ (get_dict_differences [((5 : Int), "old")]
      [((5 : Int), "new")]).updated_keys) ∧
    ((sync (fun s => s) "o" ⟨fun _ => some "A", fun _ => true, fun _ => true⟩
        (fun s => s) ⟨[], [], some [(5, "old")]⟩ [⟨5, "b", "new", none⟩]).1 =
      []) ∧
    (pyGet? (sync (fun s => s) "o"
        ⟨fun _ => some "A", fun _ => true, fun _ => true⟩ (fun s => s)
        ⟨[], [], some [(5, "old")]⟩
        [⟨5, "b", "new", none⟩]).2.1.artifact_index "5" = none) ∧
    ((sync (fun s => s) "o" ⟨fun _ => some "A", fun _ => true, fun _ => true⟩
        (fun s => s) ⟨[], [], some [(5, "old")]⟩
        [⟨5, "b", "new", none⟩]).2.1.lock = some [(5, "new")]) := by
  refine ⟨rfl, by decide, rfl, rfl, rfl⟩

/-- C2 (amended): an article classified as updated whose artifactId is absent
from the ArtifactIndex does not fail the tick, but it is not demoted to new
either: no upload call for its staged path is dispatched, its id is not
added to the index, and its hash is nevertheless committed in the lock. -/
theorem missing_artifact_id_skipped (slugify : String → String) (output : String)
    (env : UploadEnv) (sha : String → String) (st : OrchState)
    (articles : List Article) (prev d : PyDict Int String) (a : Article)
    (hlock : st.lock = some prev)
    (hgen : generate_file_hashes sha
      (save_articles slugify output st.fs articles).2 = Except.ok d)
    (hnd : (articles.map (fun b => b.id)).Nodup)
    (hidxnd : (pyKeys st.artifact_index).Nodup)
    (ha : a ∈ articles)
    (hupd : a.id ∈ (get_dict_differences prev d).updated_keys)
    (hmiss : pyGet? st.artifact_index (toString a.id) = none)
    (hpath : ∀ b ∈ articles, staged_path slugify output b =
      staged_path slugify output a → b.id = a.id)
    (hstr : ∀ b ∈ articles, toString b.id = toString a.id → b.id = a.id) :
    (sync slugify output env sha st articles).2.2 = none ∧
    Event.uploadCall (staged_path slugify output a) ∉
      (sync slugify output env sha st articles).1 ∧
    pyGet? (sync slugify output env sha st articles).2.1.artifact_index
      (toString a.id) = none ∧
    (sync slugify output env sha st articles).2.1.lock = some d ∧
    pyGet? d a.id = some (sha a.body) := by
  have hgen2 : generate_file_hashes sha articles = Except.ok d := by
    rw [← gfh_staged_eq sha slugify output st.fs articles]
    exact hgen
  have hinj := List.inj_on_of_nodup_map hnd
  have hno_new : a.id ∉ (get_dict_differences prev d).new_keys := by
    intro hmem
    rcases (mem_new_keys_iff prev d a.id).mp hmem with ⟨_, hnot⟩
    exact hnot ((mem_updated_keys_iff prev d a.id).mp hupd).1
  have hcurdef := save_articles_snd slugify output st.fs articles
  have hA : ∀ b ∈ (save_articles slugify output st.fs articles).2,
      b.file_path = some (staged_path slugify output a) →
      b.id ∉ (get_dict_differences prev d).new_keys := by
    intro b hb hbfp
    rw [hcurdef] at hb
    rcases List.mem_map.mp hb with ⟨b0, hb0, hb0eq⟩
    have hbfp2 : b.file_path = some (staged_path slugify output b0) := by
      rw [← hb0eq]
    rw [hbfp2] at hbfp
    injection hbfp with hsp
    have hb0a : b0 = a := hinj hb0 ha (hpath b0 hb0 hsp)
    have hbid : b.id = a.id := by
      rw [← hb0eq, hb0a]
    rw [hbid]
    exact hno_new
  have hB : ∀ b ∈ (save_articles slugify output st.fs articles).2,
      toString b.id = toString a.id →
      b.file_path = some (staged_path slugify output a) := by
    intro b hb hbk
    rw [hcurdef] at hb
    rcases List.mem_map.mp hb with ⟨b0, hb0, hb0eq⟩
    have hbid : b.id = b0.id := by
      rw [← hb0eq]
    rw [hbid] at hbk
    have hb0a : b0 = a := hinj hb0 ha (hstr b0 hb0 hbk)
    rw [← hb0eq, hb0a]
  have hC : ∀ b ∈ (save_articles slugify output st.fs articles).2,
      b.file_path = some (staged_path slugify output a) →
      toString b.id = toString a.id := by
    intro b hb hbfp
    rw [hcurdef] at hb
    rcases List.mem_map.mp hb with ⟨b0, hb0, hb0eq⟩
    have hbfp2 : b.file_path = some (staged_path slugify output b0) := by
      rw [← hb0eq]
    rw [hbfp2] at hbfp
    injection hbfp with hsp
    have hb0a : b0 = a := hinj hb0 ha (hpath b0 hb0 hsp)
    have hbid : b.id = a.id := by
      rw [← hb0eq, hb0a]
    rw [hbid]
  have hcore := skipped_core env (save_articles slugify output st.fs articles).2
    (save_articles slugify output st.fs articles).1 st.artifact_index
    (get_dict_differences prev d).new_keys
    (get_dict_differences prev d).updated_keys
    (staged_path slugify output a) (toString a.id) hidxnd hmiss hA hB hC
  rw [sync_ok_eq slugify output env sha st articles d hgen, hlock,
    show remote_lock_get (some prev) = prev from rfl]
  refine ⟨rfl, ?_, hcore.2.2, rfl, gfh_lookup sha articles [] d hnd ha hgen2⟩
  intro hmem
  rcases List.mem_append.mp hmem with h | h
  · exact hcore.1 h
  · exact hcore.2.1 h

/-- C2 witness: the skip theorem at the one-article tick whose artifactId is
missing from the index. -/
theorem missing_artifact_id_skipped_witness :
    ((⟨[], [], some [(5, "old")]⟩ : OrchState).lock = some [(5, "old")] ∧
      generate_file_hashes (fun s => s)
        (save_articles (fun s => s) "o" [] [(⟨5, "b", "new", none⟩ : Article)]).2 =
        Except.ok [(5, "new")] ∧
      (5 : Int) ∈ (get_dict_differences [((5 : Int), "old")]
        [((5 : Int), "new")]).updated_keys ∧
      pyGet? ([] : PyDict String String) (toString (5 : Int)) = none) ∧
    ((sync (fun s => s) "o" ⟨fun _ => some "A", fun _ => true, fun _ => true⟩
        (fun s => s) ⟨[], [], some [(5, "old")]⟩
        [(⟨5, "b", "new", none⟩ : Article)]).2.2 = none ∧
      Event.uploadCall (staged_path (fun s => s) "o" ⟨5, "b", "new", none⟩) ∉
        (sync (fun s => s) "o" ⟨fun _ => some "A", fun _ => true, fun _ => true⟩
          (fun s => s) ⟨[], [], some [(5, "old")]⟩
          [(⟨5, "b", "new", none⟩ : Article)]).1 ∧
      pyGet? (sync (fun s => s) "o"
          ⟨fun _ => some "A", fun _ => true, fun _ => true⟩ (fun s => s)
          ⟨[], [], some [(5, "old")]⟩
          [(⟨5, "b", "new", none⟩ : Article)]).2.1.artifact_index
        (toString ((⟨5, "b", "new", none⟩ : Article)).id) = none ∧
      (sync (fun s => s) "o" ⟨fun _ => some "A", fun _ => true, fun _ => true⟩
          (fun s => s) ⟨[], [], some [(5, "old")]⟩
          [(⟨5, "b", "new", none⟩ : Article)]).2.1.lock = some [(5, "new")] ∧
      pyGet? [((5 : Int), "new")] ((⟨5, "b", "new", none⟩ : Article)).id =
        some ((fun s => s) ((⟨5, "b", "new", none⟩ : Article)).body)) :=
  ⟨⟨rfl, rfl, by decide, rfl⟩,
    missing_artifact_id_skipped (fun s => s) "o"
      ⟨fun _ => some "A", fun _ => true, fun _ => true⟩ (fun s => s)
      ⟨[], [], some [(5, "old")]⟩ [(⟨5, "b", "new", none⟩ : Article)]
      [(5, "old")] [(5, "new")] ⟨5, "b", "new", none⟩ rfl rfl (by decide)
      (by decide) (by decide) (by decide) rfl (by decide) (by decide)⟩

/-- C1 counterexample: a tick with three new articles in which the upload of
article 11 fails.  Its upload was attempted, it is excluded from the
artifact-index write, but the committed lock contains id 11 with its hash, so
the failed id is not excluded from the lock and the article is not seen as
new on the next tick. -/
theorem failed_upload_in_lock_counterexample :
    ((sync (fun s => s) "o"
        ⟨fun p => if p = "o/b.md" then none else some "A", fun _ => true,
          fun _ => true⟩ (fun s => s) ⟨[], [], none⟩
        [⟨10, "a", "x", none⟩, ⟨11, "b", "y", none⟩, ⟨12, "c", "z", none⟩]).2.2 =
      none) ∧
    ((sync (fun s => s) "o"
        ⟨fun p => if p = "o/b.md" then none else some "A", fun _ => true,
          fun _ => true⟩ (fun s => s) ⟨[], [], none⟩
        [⟨10, "a", "x", none⟩, ⟨11, "b", "y", none⟩, ⟨12, "c", "z", none⟩]).1.count
      (Event.uploadCall "o/b.md") = 1) ∧
    (pyGet? (sync (fun s => s) "o"
        ⟨fun p => if p = "o/b.md" then none else some "A", fun _ => true,
          fun _ => true⟩ (fun s => s) ⟨[], [], none⟩
        [⟨10, "a", "x", none⟩, ⟨11, "b", "y", none⟩,
          ⟨12, "c", "z", none⟩]).2.1.artifact_index "11" = none) ∧
    ((sync (fun s => s) "o"
        ⟨fun p => if p = "o/b.md" then none else some "A", fun _ => true,
          fun _ => true⟩ (fun s => s) ⟨[], [], none⟩
        [⟨10, "a", "x", none⟩, ⟨11, "b", "y", none⟩,
          ⟨12, "c", "z", none⟩]).2.1.lock =
      some [(10, "x"), (11, "y"), (12, "z")]) := by
  refine ⟨rfl, rfl, rfl, rfl⟩

/-- C1 (amended): per-file upload failures are excluded from the
artifact-index write — every index change stems from a successful upload —
but the lock committed at the end of the tick is always the full current hash
map, failed ids included, so failed articles are not re-classified as new or
updated on the next tick. -/
theorem sync_commits_full_lock (slugify : String → String) (output : String)
    (env : UploadEnv) (sha : String → String) (st : OrchState)
    (articles : List Article) (d : PyDict Int String)
    (hgen : generate_file_hashes sha
      (save_articles slugify output st.fs articles).2 = Except.ok d)
    (hnd : (pyKeys st.artifact_index).Nodup) :
    (sync slugify output env sha st articles).2.2 = none ∧
    (sync slugify output env sha st articles).2.1.lock = some d ∧
    (∀ k, pyGet? (sync slugify output env sha st articles).2.1.artifact_index k ≠
        pyGet? st.artifact_index k →
      ∃ q fid, env.uploadResult q = some fid ∧
        pyGet? (sync slugify output env sha st articles).2.1.artifact_index k =
          some fid) := by
  rw [sync_ok_eq slugify output env sha st articles d hgen]
  refine ⟨rfl, rfl, ?_⟩
  intro k hch
  by_cases hmid : pyGet? (update_new_articles env
      (save_articles slugify output st.fs articles).2
      (save_articles slugify output st.fs articles).1
      (create_new_articles env (save_articles slugify output st.fs articles).2
        (save_articles slugify output st.fs articles).1 st.artifact_index
        (get_dict_differences (remote_lock_get st.lock) d).new_keys).2
      (get_dict_differences (remote_lock_get st.lock) d).updated_keys).2 k =
      pyGet? (create_new_articles env (save_articles slugify output st.fs articles).2
        (save_articles slugify output st.fs articles).1 st.artifact_index
        (get_dict_differences (remote_lock_get st.lock) d).new_keys).2 k
  · have hch1 : pyGet? (create_new_articles env
        (save_articles slugify output st.fs articles).2
        (save_articles slugify output st.fs articles).1 st.artifact_index
        (get_dict_differences (remote_lock_get st.lock) d).new_keys).2 k ≠
        pyGet? st.artifact_index k := by
      intro he
      exact hch (hmid.trans he)
    rcases create_new_articles_sound env _ _ _ _ hnd k hch1 with ⟨q, fid, hq, hlook⟩
    exact ⟨q, fid, hq, hmid.trans hlook⟩
  · rcases update_new_articles_sound env _ _ _ _
      (create_new_articles_nodup env _ _ _ _ hnd) k hmid with ⟨q, fid, hq, hlook⟩
    exact ⟨q, fid, hq, hlook⟩

/-- C1 witness: the full-lock-commit theorem at the three-article tick whose
second upload fails. -/
theorem sync_commits_full_lock_witness :
    (generate_file_hashes (fun s => s)
        (save_articles (fun s => s) "o" []
          [⟨10, "a", "x", none⟩, ⟨11, "b", "y", none⟩, ⟨12, "c", "z", none⟩]).2 =
      Except.ok [(10, "x"), (11, "y"), (12, "z")] ∧
      (pyKeys ([] : PyDict String String)).Nodup) ∧
    ((sync (fun s => s) "o"
        ⟨fun p => if p = "o/b.md" then none else some "A", fun _ => true,
          fun _ => true⟩ (fun s => s) ⟨[], [], none⟩
        [⟨10, "a", "x", none⟩, ⟨11, "b", "y", none⟩, ⟨12, "c", "z", none⟩]).2.2 =
      none ∧
    (sync (fun s => s) "o"
        ⟨fun p => if p = "o/b.md" then none else some "A", fun _ => true,
          fun _ => true⟩ (fun s => s) ⟨[], [], none⟩
        [⟨10, "a", "x", none⟩, ⟨11, "b", "y", none⟩, ⟨12, "c", "z", none⟩]).2.1.lock =
      some [(10, "x"), (11, "y"), (12, "z")] ∧
    (∀ k, pyGet? (sync (fun s => s) "o"
        ⟨fun p => if p = "o/b.md" then none else some "A", fun _ => true,
          fun _ => true⟩ (fun s => s) ⟨[], [], none⟩
        [⟨10, "a", "x", none⟩, ⟨11, "b", "y", none⟩,
          ⟨12, "c", "z", none⟩]).2.1.artifact_index k ≠
        pyGet? (⟨[], [], none⟩ : OrchState).artifact_index k →
      ∃ q fid,
        (⟨fun p => if p = "o/b.md" then none else some "A", fun _ => true,
          fun _ => true⟩ : UploadEnv).uploadResult q = some fid ∧
        pyGet? (sync (fun s => s) "o"
          ⟨fun p => if p = "o/b.md" then none else some "A", fun _ => true,
            fun _ => true⟩ (fun s => s) ⟨[], [], none⟩
          [⟨10, "a", "x", none⟩, ⟨11, "b", "y", none⟩,
            ⟨12, "c", "z", none⟩]).2.1.artifact_index k = some fid)) :=
  ⟨⟨rfl, by decide⟩, sync_commits_full_lock (fun s => s) "o"
    ⟨fun p => if p = "o/b.md" then none else some "A", fun _ => true, fun _ => true⟩
    (fun s => s) ⟨[], [], none⟩
    [⟨10, "a", "x", none⟩, ⟨11, "b", "y", none⟩, ⟨12, "c", "z", none⟩]
    [(10, "x"), (11, "y"), (12, "z")] rfl (by decide)⟩

/-- C3: an article whose content hash equals its hash in the previous lock is
classified neither as new nor as updated, so no create or replace is
dispatched for it; and when every staged article hashes to its previous lock
value and the previous lock covers exactly the staged ids, the tick issues no
remote call at all, leaves the index untouched, and commits a lock
extensionally equal to the previous one. -/
theorem unchanged_no_dispatch (slugify : String → String) (output : String)
    (env : UploadEnv) (sha : String → String) (st : OrchState)
    (articles : List Article) (prev d : PyDict Int String)
    (hlock : st.lock = some prev)
    (hgen : generate_file_hashes sha
      (save_articles slugify output st.fs articles).2 = Except.ok d)
    (hnd : (articles.map (fun a => a.id)).Nodup) :
    (∀ a ∈ articles, pyGet? prev a.id = some (sha a.body) →
      a.id ∉ (get_dict_differences prev d).new_keys ∧
      a.id ∉ (get_dict_differences prev d).updated_keys) ∧
    ((∀ a ∈ articles, pyGet? prev a.id = some (sha a.body)) →
      (∀ k ∈ pyKeys prev, ∃ a ∈ articles, a.id = k) →
      (sync slugify output env sha st articles).1 = [] ∧
      (sync slugify output env sha st articles).2.2 = none ∧
      (sync slugify output env sha st articles).2.1.artifact_index =
        st.artifact_index ∧
      (sync slugify output env sha st articles).2.1.lock = some d ∧
      (∀ k, pyGet? d k = pyGet? prev k)) := by
  have hgen2 : generate_file_hashes sha articles = Except.ok d := by
    rw [← gfh_staged_eq sha slugify output st.fs articles]
    exact hgen
  have hlookup : ∀ a ∈ articles, pyGet? d a.id = some (sha a.body) :=
    fun a ha => gfh_lookup sha articles [] d hnd ha hgen2
  have hkeys : ∀ k, k ∈ pyKeys d ↔ ∃ a ∈ articles, a.id = k := by
    intro k
    have h := gfh_mem_keys sha articles [] d hgen2 k
    simpa [pyKeys] using h
  constructor
  · intro a ha hprev
    constructor
    · intro hmem
      rcases (mem_new_keys_iff prev d a.id).mp hmem with ⟨_, hnot⟩
      exact hnot (mem_pyKeys_of_pyGet?_eq_some hprev)
    · intro hmem
      rcases (mem_updated_keys_iff prev d a.id).mp hmem with ⟨_, _, hne⟩
      exact hne (by rw [hprev, hlookup a ha])
  · intro hall hcover
    have hdext : ∀ k, pyGet? d k = pyGet? prev k := by
      intro k
      by_cases hkd : k ∈ pyKeys d
      · rcases (hkeys k).mp hkd with ⟨a, ha, hak⟩
        rw [← hak, hlookup a ha, hall a ha]
      · have h1 : pyGet? d k = none := (pyGet?_eq_none_iff d k).mpr hkd
        have h2 : pyGet? prev k = none := by
          rw [pyGet?_eq_none_iff]
          intro hkp
          rcases hcover k hkp with ⟨a, ha, hak⟩
          exact hkd (hak ▸ mem_pyKeys_of_pyGet?_eq_some (hlookup a ha))
        rw [h1, h2]
    have hnew : (get_dict_differences prev d).new_keys = [] := by
      rw [List.eq_nil_iff_forall_not_mem]
      intro k hk
      rcases (mem_new_keys_iff prev d k).mp hk with ⟨hkd, hknp⟩
      rcases (hkeys k).mp hkd with ⟨a, ha, hak⟩
      exact hknp (hak ▸ mem_pyKeys_of_pyGet?_eq_some (hall a ha))
    have hupd : (get_dict_differences prev d).updated_keys = [] := by
      rw [List.eq_nil_iff_forall_not_mem]
      intro k hk
      rcases (mem_updated_keys_iff prev d k).mp hk with ⟨_, hkd, hne⟩
      exact hne (hdext k).symm
    rw [sync_ok_eq slugify output env sha st articles d hgen, hlock,
      show remote_lock_get (some prev) = prev from rfl, hnew, hupd,
      create_new_articles_nil, update_new_articles_nil]
    exact ⟨rfl, rfl, rfl, rfl, hdext⟩

/-- C3 witness: the no-dispatch theorem at a tick whose single article hashes
to its previous lock value. -/
theorem unchanged_no_dispatch_witness :
    ((⟨[], [], some [(1, "h")]⟩ : OrchState).lock = some [(1, "h")] ∧
      generate_file_hashes (fun _ => "h")
        (save_articles (fun _ => "s") "o" [] [(⟨1, "n", "x", none⟩ : Article)]).2 =
        Except.ok [(1, "h")] ∧
      (([(⟨1, "n", "x", none⟩ : Article)]).map (fun a => a.id)).Nodup) ∧
    ((∀ a ∈ [(⟨1, "n", "x", none⟩ : Article)],
        pyGet? [(1, "h")] a.id = some ((fun _ => "h") a.body) →
        a.id ∉ (get_dict_differences [(1, "h")] [(1, "h")]).new_keys ∧
        a.id ∉ (get_dict_differences [(1, "h")] [(1, "h")]).updated_keys) ∧
      ((∀ a ∈ [(⟨1, "n", "x", none⟩ : Article)],
          pyGet? [(1, "h")] a.id = some ((fun _ => "h") a.body)) →
        (∀ k ∈ pyKeys [((1 : Int), "h")], ∃ a ∈ [(⟨1, "n", "x", none⟩ : Article)],
          a.id = k) →
        (sync (fun _ => "s") "o" ⟨fun _ => some "A", fun _ => true, fun _ => true⟩
          (fun _ => "h") ⟨[], [], some [(1, "h")]⟩
          [(⟨1, "n", "x", none⟩ : Article)]).1 = [] ∧
        (sync (fun _ => "s") "o" ⟨fun _ => some "A", fun _ => true, fun _ => true⟩
          (fun _ => "h") ⟨[], [], some [(1, "h")]⟩
          [(⟨1, "n", "x", none⟩ : Article)]).2.2 = none ∧
        (sync (fun _ => "s") "o" ⟨fun _ => some "A", fun _ => true, fun _ => true⟩
          (fun _ => "h") ⟨[], [], some [(1, "h")]⟩
          [(⟨1, "n", "x", none⟩ : Article)]).2.1.artifact_index =
          (⟨[], [], some [(1, "h")]⟩ : OrchState).artifact_index ∧
        (sync (fun _ => "s") "o" ⟨fun _ => some "A", fun _ => true, fun _ => true⟩
          (fun _ => "h") ⟨[], [], some [(1, "h")]⟩
          [(⟨1, "n", "x", none⟩ : Article)]).2.1.lock = some [(1, "h")] ∧
        (∀ k, pyGet? [((1 : Int), "h")] k = pyGet? [((1 : Int), "h")] k))) :=
  ⟨⟨rfl, rfl, by decide⟩,
    unchanged_no_dispatch (fun _ => "s") "o"
      ⟨fun _ => some "A", fun _ => true, fun _ => true⟩ (fun _ => "h")
      ⟨[], [], some [(1, "h")]⟩ [(⟨1, "n", "x", none⟩ : Article)]
      [(1, "h")] [(1, "h")] rfl rfl (by decide)⟩

/-- C9: writing a batch of new article-to-artifactId mappings through
`_save_article_openai_file_ids` leaves every pre-existing index entry whose
article id is not mapped by the batch unchanged: a field present in the hash
before the write whose key is not among the stringified ids of the batch maps
to the same artifact id after the write. -/
theorem artifact_index_frame (cur : List Article) (succ : PyDict String String)
    (redis_hash : PyDict String String) (k v : String)
    (hnd : (pyKeys redis_hash).Nodup)
    (hpre : pyGet? redis_hash k = some v)
    (hk : k ∉ (article_openai_id_map cur succ).map (fun p => p.1.toStr)) :
    pyGet? (save_article_openai_file_ids cur succ redis_hash) k = some v := by
  rw [save_ids_frame cur succ redis_hash k hnd hk]
  exact hpre

/-- C9 witness: the frame theorem at a concrete hash `{"5": "A"}` and a batch
that writes article id 10. -/
theorem artifact_index_frame_witness :
    ((pyKeys ([("5", "A")] : PyDict String String)).Nodup ∧
      pyGet? ([("5", "A")] : PyDict String String) "5" = some "A" ∧
      "5" ∉ (article_openai_id_map [(⟨10, "n", "b", some "p"⟩ : Article)]
        [("p", "F")]).map (fun p => p.1.toStr)) ∧
    pyGet? (save_article_openai_file_ids [(⟨10, "n", "b", some "p"⟩ : Article)]
      [("p", "F")] [("5", "A")]) "5" = some "A" :=
  ⟨⟨by decide, by decide, by decide⟩,
    artifact_index_frame [(⟨10, "n", "b", some "p"⟩ : Article)] [("p", "F")]
      [("5", "A")] "5" "A" (by decide) (by decide) (by decide)⟩

/-- C6: `update_files_batch` (the `replaceBatch` contract) first runs the
delete phase over every old artifact id (each id detached; its bytes deleted
when the detach succeeded), with any delete failure swallowed, and only then
invokes the create batch on the new paths; the returned batch result is
exactly the create-batch result, does not depend on the delete oracle, and
every surfaced failure is a per-path upload failure. -/
theorem replaceBatch_delete_then_create (env env2 : UploadEnv)
    (fs : PyDict String String) (file_paths openai_ids : List String)
    (hup : env.uploadResult = env2.uploadResult) :
    (update_files_batch env fs file_paths openai_ids).2 =
      (upload_files_batch env fs file_paths).2 ∧
    (update_files_batch env fs file_paths openai_ids).2 =
      (update_files_batch env2 fs file_paths openai_ids).2 ∧
    (update_files_batch env fs file_paths openai_ids).1 =
      (openai_ids.map (delete_file_async env)).flatten ++
        (upload_files_batch env fs file_paths).1 ∧
    (∀ fid ∈ openai_ids,
      Event.detachCall fid ∈ (update_files_batch env fs file_paths openai_ids).1) ∧
    (∀ s ∈ (update_files_batch env fs file_paths openai_ids).2.failed_uploads,
      ∃ q ∈ file_paths, s = q ++ " (Upload failed)") := by
  have hres : (update_files_batch env fs file_paths openai_ids).2 =
      (upload_files_batch env fs file_paths).2 := rfl
  have hev : (update_files_batch env fs file_paths openai_ids).1 =
      (openai_ids.map (delete_file_async env)).flatten ++
        (upload_files_batch env fs file_paths).1 := rfl
  refine ⟨hres, ?_, hev, ?_, ?_⟩
  · have h2 : (update_files_batch env2 fs file_paths openai_ids).2 =
        (upload_files_batch env2 fs file_paths).2 := rfl
    rw [hres, h2, upload_files_batch_congr hup]
  · intro fid hfid
    rw [hev]
    refine List.mem_append_left _ (List.mem_flatten.mpr ⟨delete_file_async env fid, ?_, ?_⟩)
    · exact List.mem_map_of_mem _ hfid
    · exact detachCall_mem_delete_file_async env fid
  · rw [hres]
    exact batch_failed_shape env fs file_paths

/-- C6 witness: the replace-batch theorem instantiated with a concrete
environment in which every delete call fails and a second environment in
which every delete call succeeds. -/
theorem replaceBatch_delete_then_create_witness :
    ((⟨fun _ => some "F", fun _ => false, fun _ => false⟩ : UploadEnv).uploadResult =
      (⟨fun _ => some "F", fun _ => true, fun _ => true⟩ : UploadEnv).uploadResult) ∧
    ((update_files_batch ⟨fun _ => some "F", fun _ => false, fun _ => false⟩
        [("a", "x")] ["a"] ["old1"]).2 =
      (upload_files_batch ⟨fun _ => some "F", fun _ => false, fun _ => false⟩
        [("a", "x")] ["a"]).2 ∧
    (update_files_batch ⟨fun _ => some "F", fun _ => false, fun _ => false⟩
        [("a", "x")] ["a"] ["old1"]).2 =
      (update_files_batch ⟨fun _ => some "F", fun _ => true, fun _ => true⟩
        [("a", "x")] ["a"] ["old1"]).2 ∧
    (update_files_batch ⟨fun _ => some "F", fun _ => false, fun _ => false⟩
        [("a", "x")] ["a"] ["old1"]).1 =
      ((["old1"] : List String).map
          (delete_file_async ⟨fun _ => some "F", fun _ => false, fun _ => false⟩)).flatten ++
        (upload_files_batch ⟨fun _ => some "F", fun _ => false, fun _ => false⟩
          [("a", "x")] ["a"]).1 ∧
    (∀ fid ∈ (["old1"] : List String),
      Event.detachCall fid ∈ (update_files_batch ⟨fun _ => some "F", fun _ => false, fun _ => false⟩
        [("a", "x")] ["a"] ["old1"]).1) ∧
    (∀ s ∈ (update_files_batch ⟨fun _ => some "F", fun _ => false, fun _ => false⟩
        [("a", "x")] ["a"] ["old1"]).2.failed_uploads,
      ∃ q ∈ (["a"] : List String), s = q ++ " (Upload failed)")) :=
  ⟨rfl, replaceBatch_delete_then_create
    ⟨fun _ => some "F", fun _ => false, fun _ => false⟩
    ⟨fun _ => some "F", fun _ => true, fun _ => true⟩
    [("a", "x")] ["a"] ["old1"] rfl⟩

/-- C8 counterexample: a create batch over one staged path whose upload fails
performs zero collection-refresh (assistant update) calls, not exactly one. -/
theorem createBatch_all_failed_no_refresh :
    ((upload_files_batch ⟨fun _ => none, fun _ => true, fun _ => true⟩
        [("p", "body")] ["p"]).1.count Event.refreshCall = 0) ∧
    (upload_files_batch ⟨fun _ => none, fun _ => true, fun _ => true⟩
        [("p", "body")] ["p"]).2.failed_uploads = ["p (Upload failed)"] := by
  constructor
  · rfl
  · rfl

/-- C8 (amended): every invocation of the create batch records each per-file
failure in the failed list without aborting the rest of the batch, and
performs at most one collection-level refresh call, placed after all per-file
uploads — exactly one when at least one upload succeeded and none when every
upload failed. -/
theorem createBatch_failures_and_single_refresh (env : UploadEnv)
    (fs : PyDict String String) (file_paths : List String) (p : String)
    (hp : p ∈ file_paths)
    (hfail : uploadOutcomeFailed (upload_file_async env fs p).2.2 = true) :
    ((p ++ " (Upload failed)") ∈ (upload_files_batch env fs file_paths).2.failed_uploads) ∧
    (∀ q ∈ file_paths, pyHasKey fs q = true →
      Event.uploadCall q ∈ (upload_files_batch env fs file_paths).1) ∧
    ((upload_files_batch env fs file_paths).1.count Event.refreshCall =
      if (upload_files_batch env fs file_paths).2.successful_uploads = [] then 0 else 1) ∧
    (∃ l r, (upload_files_batch env fs file_paths).1 = l ++ r ∧
      Event.refreshCall ∉ l ∧ ∀ e ∈ r, e = Event.refreshCall) := by
  refine ⟨?_, ?_, ?_, ?_⟩
  · have hmem : upload_file_async env fs p ∈ file_paths.map (upload_file_async env fs) :=
      List.mem_map_of_mem _ hp
    have := batch_foldl_failed_of_mem (file_paths.map (upload_file_async env fs))
      ([], []) hmem hfail
    rw [upload_file_async_path] at this
    exact this
  · intro q hq hkey
    refine List.mem_append_left _ (List.mem_flatten.mpr
      ⟨[Event.uploadCall q], ?_, by simp⟩)
    refine List.mem_map.mpr ⟨upload_file_async env fs q, List.mem_map_of_mem _ hq, ?_⟩
    exact upload_file_async_events_pos env fs q hkey
  · rw [upload_files_batch_events_eq, upload_files_batch_successful_eq, List.count_append,
      List.count_eq_zero.mpr (refreshCall_not_mem_upload_events env fs file_paths)]
    by_cases hsucc : (((file_paths.map (upload_file_async env fs)).foldl batch_step
        ([], [])).1 : PyDict String String) = []
    · rw [if_pos hsucc, if_pos hsucc]
      rfl
    · rw [if_neg hsucc, if_neg hsucc]
      rfl
  · refine ⟨((file_paths.map (upload_file_async env fs)).map (fun r => r.1)).flatten,
      (if (((file_paths.map (upload_file_async env fs)).foldl batch_step
        ([], [])).1 : PyDict String String) = [] then [] else [Event.refreshCall]),
      upload_files_batch_events_eq env fs file_paths,
      refreshCall_not_mem_upload_events env fs file_paths, ?_⟩
    intro e he
    by_cases hsucc : (((file_paths.map (upload_file_async env fs)).foldl batch_step
        ([], [])).1 : PyDict String String) = []
    · rw [if_pos hsucc] at he
      cases he
    · rw [if_neg hsucc] at he
      simpa using he

/-- C8 witness: the amended create-batch theorem at a concrete batch in which
the upload of path `a` fails and the upload of path `b` succeeds. -/
theorem createBatch_failures_and_single_refresh_witness :
    (("a" : String) ∈ (["a", "b"] : List String) ∧
      uploadOutcomeFailed (upload_file_async
        ⟨fun q => if q = "b" then some "F" else none, fun _ => true, fun _ => true⟩
        [("a", "x"), ("b", "y")] "a").2.2 = true) ∧
    ((("a" ++ " (Upload failed)") ∈ (upload_files_batch
        ⟨fun q => if q = "b" then some "F" else none, fun _ => true, fun _ => true⟩
        [("a", "x"), ("b", "y")] ["a", "b"]).2.failed_uploads) ∧
    (∀ q ∈ (["a", "b"] : List String),
      pyHasKey [("a", "x"), ("b", "y")] q = true →
      Event.uploadCall q ∈ (upload_files_batch
        ⟨fun q => if q = "b" then some "F" else none, fun _ => true, fun _ => true⟩
        [("a", "x"), ("b", "y")] ["a", "b"]).1) ∧
    ((upload_files_batch
        ⟨fun q => if q = "b" then some "F" else none, fun _ => true, fun _ => true⟩
        [("a", "x"), ("b", "y")] ["a", "b"]).1.count Event.refreshCall =
      if (upload_files_batch
        ⟨fun q => if q = "b" then some "F" else none, fun _ => true, fun _ => true⟩
        [("a", "x"), ("b", "y")] ["a", "b"]).2.successful_uploads = [] then 0 else 1) ∧
    (∃ l r, (upload_files_batch
        ⟨fun q => if q = "b" then some "F" else none, fun _ => true, fun _ => true⟩
        [("a", "x"), ("b", "y")] ["a", "b"]).1 = l ++ r ∧
      Event.refreshCall ∉ l ∧ ∀ e ∈ r, e = Event.refreshCall)) :=
  ⟨⟨by decide, by decide⟩, createBatch_failures_and_single_refresh
    ⟨fun q => if q = "b" then some "F" else none, fun _ => true, fun _ => true⟩
    [("a", "x"), ("b", "y")] ["a", "b"] "a" (by decide) (by decide)⟩

/-- C4: `get_dict_differences(previous, current)` returns exactly the three
sets of the specification, and the three sets are pairwise disjoint:
`new = keys(current) − keys(previous)`, `deleted = keys(previous) − keys(current)`,
`updated = keys in both whose values differ`. -/
theorem diff_exact {K V : Type} [DecidableEq K] [DecidableEq V]
    (previous current : PyDict K V) :
    let d := get_dict_differences previous current
    (∀ k, k ∈ d.new_keys ↔ (k ∈ pyKeys current ∧ k ∉ pyKeys previous)) ∧
    (∀ k, k ∈ d.deleted_keys ↔ (k ∈ pyKeys previous ∧ k ∉ pyKeys current)) ∧
    (∀ k, k ∈ d.updated_keys ↔
      (k ∈ pyKeys previous ∧ k ∈ pyKeys current ∧ pyGet? previous k ≠ pyGet? current k)) ∧
    (∀ k, k ∈ d.new_keys → k ∉ d.updated_keys) ∧
    (∀ k, k ∈ d.new_keys → k ∉ d.deleted_keys) ∧
    (∀ k, k ∈ d.updated_keys → k ∉ d.deleted_keys) := by
  intro d
  have hnew : ∀ k, k ∈ d.new_keys ↔ (k ∈ pyKeys current ∧ k ∉ pyKeys previous) := by
    intro k
    simp [d, get_dict_differences, List.mem_filter]
  have hdel : ∀ k, k ∈ d.deleted_keys ↔ (k ∈ pyKeys previous ∧ k ∉ pyKeys current) := by
    intro k
    simp [d, get_dict_differences, List.mem_filter]
  have hupd : ∀ k, k ∈ d.updated_keys ↔
      (k ∈ pyKeys previous ∧ k ∈ pyKeys current ∧ pyGet? previous k ≠ pyGet? current k) := by
    intro k
    simp [d, get_dict_differences, List.mem_filter]
    try tauto
  refine ⟨hnew, hdel, hupd, ?_, ?_, ?_⟩
  · intro k hk hk2
    exact ((hnew k).mp hk).2 ((hupd k).mp hk2).1
  · intro k hk hk2
    exact ((hnew k).mp hk).2 ((hdel k).mp hk2).1
  · intro k hk hk2
    exact ((hdel k).mp hk2).2 ((hupd k).mp hk).2.1

theorem gatherListings_error_of_mem {A B : Type} (f : A → Except String B)
    (l : List A) {a : A} {e : String} (ha : a ∈ l) (he : f a = Except.error e) :
    ∃ e2, gatherListings f l = Except.error e2 := by
  induction l with
  | nil => cases ha
  | cons c rest ih =>
    rcases List.mem_cons.mp ha with h | h
    · subst h
      refine ⟨e, ?_⟩
      unfold gatherListings
      rw [he]
    · rcases hc : f c with ec | vc
      · refine ⟨ec, ?_⟩
        unfold gatherListings
        rw [hc]
      · rcases ih h with ⟨e2, he2⟩
        refine ⟨e2, ?_⟩
        unfold gatherListings
        rw [hc, he2]

theorem gatherListings_ok_mem {A B : Type} (f : A → Except String B) (l : List A) :
    ∀ bs, gatherListings f l = Except.ok bs →
      ∀ a ∈ l, ∃ b, f a = Except.ok b ∧ b ∈ bs := by
  induction l with
  | nil =>
    intro bs hok a ha
    cases ha
  | cons c rest ih =>
    intro bs hok a ha
    unfold gatherListings at hok
    rcases hc : f c with ec | vc
    · rw [hc] at hok
      cases hok
    · rw [hc] at hok
      rcases hr : gatherListings f rest with er | vs
      · rw [hr] at hok
        cases hok
      · rw [hr] at hok
        injection hok with hbs
        subst hbs
        rcases List.mem_cons.mp ha with h | h
        · subst h
          exact ⟨vc, hc, List.mem_cons_self _ _⟩
        · rcases ih vs hr a h with ⟨b, hb1, hb2⟩
          exact ⟨b, hb1, List.mem_cons_of_mem _ hb2⟩

theorem get_articles_cats_ok (senv : ScrapeEnv) (md : String → String)
    {cats : List Category} (hcats : senv.categories = Except.ok cats) :
    get_articles senv md =
      (match gatherListings (fun c => senv.sectionsOf c.id) cats with
      | Except.error e => Except.error e
      | Except.ok sectionss =>
        match gatherListings (fun s => senv.articlesOf s.id) sectionss.flatten with
        | Except.error e => Except.error e
        | Except.ok articless =>
          Except.ok (convert_body_to_markdown md articless.flatten)) := by
  unfold get_articles
  rw [hcats]

theorem get_articles_secs_ok (senv : ScrapeEnv) (md : String → String)
    {cats : List Category} {secss : List (List Section)}
    (hcats : senv.categories = Except.ok cats)
    (hsecs : gatherListings (fun c => senv.sectionsOf c.id) cats = Except.ok secss) :
    get_articles senv md =
      (match gatherListings (fun s => senv.articlesOf s.id) secss.flatten with
      | Except.error e => Except.error e
      | Except.ok articless =>
        Except.ok (convert_body_to_markdown md articless.flatten)) := by
  rw [get_articles_cats_ok senv md hcats, hsecs]

/-- C7: if any single listing — the categories, the sections of a listed
category, or the articles of a listed section — fails during harvest, then
`get_articles` aborts with an error and returns no article list at all; when
it does return a list, every listing succeeded and the list is the full
flatten of every article listing, so a partial article set is never
emitted. -/
theorem harvest_all_or_nothing (senv : ScrapeEnv) (md : String → String) :
    (∀ e, senv.categories = Except.error e →
      get_articles senv md = Except.error e) ∧
    (∀ cats, senv.categories = Except.ok cats →
      ∀ c ∈ cats, ∀ e, senv.sectionsOf c.id = Except.error e →
        ∃ e2, get_articles senv md = Except.error e2) ∧
    (∀ cats secss, senv.categories = Except.ok cats →
      gatherListings (fun c => senv.sectionsOf c.id) cats = Except.ok secss →
      ∀ s ∈ secss.flatten, ∀ e, senv.articlesOf s.id = Except.error e →
        ∃ e2, get_articles senv md = Except.error e2) ∧
    (∀ result, get_articles senv md = Except.ok result →
      ∃ cats secss artss, senv.categories = Except.ok cats ∧
        gatherListings (fun c => senv.sectionsOf c.id) cats = Except.ok secss ∧
        gatherListings (fun s => senv.articlesOf s.id) secss.flatten =
          Except.ok artss ∧
        result = convert_body_to_markdown md artss.flatten ∧
        (∀ s ∈ secss.flatten, ∃ arts, senv.articlesOf s.id = Except.ok arts ∧
          ∀ x ∈ arts, x ∈ artss.flatten)) := by
  refine ⟨?_, ?_, ?_, ?_⟩
  · intro e he
    unfold get_articles
    rw [he]
  · intro cats hcats c hc e he
    rcases gatherListings_error_of_mem (fun c => senv.sectionsOf c.id) cats hc he with
      ⟨e2, he2⟩
    refine ⟨e2, ?_⟩
    rw [get_articles_cats_ok senv md hcats, he2]
  · intro cats secss hcats hsecs s hs e he
    rcases gatherListings_error_of_mem (fun s => senv.articlesOf s.id) secss.flatten
      hs he with ⟨e2, he2⟩
    refine ⟨e2, ?_⟩
    rw [get_articles_secs_ok senv md hcats hsecs, he2]
  · intro result hok
    rcases hcat : senv.categories with ec | cats
    · rw [show get_articles senv md = Except.error ec from by
        unfold get_articles; rw [hcat]] at hok
      cases hok
    · rcases hsec : gatherListings (fun c => senv.sectionsOf c.id) cats with es | secss
      · rw [get_articles_cats_ok senv md hcat, hsec] at hok
        have hok2 : Except.error es = Except.ok result := hok
        cases hok2
      · rcases hart : gatherListings (fun s => senv.articlesOf s.id) secss.flatten with
          ea | artss
        · rw [get_articles_secs_ok senv md hcat hsec, hart] at hok
          have hok2 : Except.error ea = Except.ok result := hok
          cases hok2
        · rw [get_articles_secs_ok senv md hcat hsec, hart] at hok
          have hok2 : Except.ok (convert_body_to_markdown md artss.flatten) =
            Except.ok result := hok
          injection hok2 with hres
          refine ⟨cats, secss, artss, rfl, hsec, hart, hres.symm, ?_⟩
          intro s hs
          rcases gatherListings_ok_mem (fun s => senv.articlesOf s.id) secss.flatten
            artss hart s hs with ⟨arts, harts, hmem⟩
          exact ⟨arts, harts, fun x hx => List.mem_flatten.mpr ⟨arts, hmem, hx⟩⟩

/-- C7 witness: the harvest theorem at a concrete environment with one
category whose section listing fails, and at the same environment on the
error-free path for one successful section with one article. -/
theorem harvest_all_or_nothing_witness :
    ∃ e2, get_articles
      ⟨Except.ok [(⟨1⟩ : Category)], fun _ => Except.error "listing failed",
        fun _ => Except.ok []⟩ (fun s => s) = Except.error e2 :=
  (harvest_all_or_nothing
    ⟨Except.ok [(⟨1⟩ : Category)], fun _ => Except.error "listing failed",
      fun _ => Except.ok []⟩ (fun s => s)).2.1 [(⟨1⟩ : Category)] rfl
    (⟨1⟩ : Category) (by decide) "listing failed" rfl

end Sync